import Mathlib

/-!
Verification of the anti-hallucination summarization pipeline
(`five-rocks` repository).

Python strings are embedded as `List Char`; Python `dict`s (which preserve
insertion order) are embedded as association lists; Python `defaultdict`
behaviour is embedded explicitly (`dictAppend`, `ddGet`).  Fallible or
external (language-model) calls are embedded as explicit oracle parameters.
-/

set_option autoImplicit false
set_option synthInstance.maxSize 4096
set_option synthInstance.maxHeartbeats 1000000

namespace FiveRocks

/-- Abbreviation for embedding a Python string literal. -/
def pyS (s : String) : List Char := s.data

/-- Python `\s` for the character set relevant to this repository
(`str.split()`, `str.strip()`, and the `\s` regex class). -/
def isSpace (c : Char) : Bool :=
  c = ' ' || c = '\t' || c = '\n' || c = '\x0d' || c = '\x0b' || c = '\x0c'

/-- Python `\d`. -/
def isDigit (c : Char) : Bool :=
  '0' ≤ c && c ≤ '9'

/-- Case folding used to embed Python's case-insensitive regex flag `(?i)`
and `str.lower()`: ASCII letters plus the accented capitals appearing in the
chunker's pattern table. -/
def foldChar (c : Char) : Char :=
  if 'A' ≤ c && c ≤ 'Z' then Char.ofNat (c.toNat + 32)
  else if c = 'Ç' then 'ç'
  else if c = 'Á' then 'á'
  else if c = 'Ã' then 'ã'
  else if c = 'É' then 'é'
  else if c = 'Ê' then 'ê'
  else if c = 'Í' then 'í'
  else if c = 'Ó' then 'ó'
  else if c = 'Ú' then 'ú'
  else c

/-- Python `str.lower()` (over the alphabet used by this repository). -/
def pyLower (l : List Char) : List Char := l.map foldChar

/-- Python `str.strip()`: drop leading and trailing whitespace. -/
def pyStrip (l : List Char) : List Char :=
  ((l.dropWhile isSpace).reverse.dropWhile isSpace).reverse

/-- Python `str.split()` with no separator, with an explicit fuel argument
(any fuel at least the string length gives the same result) so that the
recursion is structural and evaluates by kernel reduction. -/
def wordsFuel : Nat → List Char → List (List Char)
  | _, [] => []
  | 0, _ :: _ => []
  | fuel + 1, c :: cs =>
    if isSpace c then wordsFuel fuel cs
    else (c :: cs.takeWhile (fun x => !isSpace x)) ::
      wordsFuel fuel (cs.dropWhile (fun x => !isSpace x))

/-- Python `str.split()` with no separator: whitespace-delimited words,
empty tokens discarded. -/
def words (l : List Char) : List (List Char) := wordsFuel l.length l

theorem wordsFuel_congr :
    ∀ (n m : Nat) (l : List Char), l.length ≤ n → l.length ≤ m →
      wordsFuel n l = wordsFuel m l := by
  intro n
  induction n with
  | zero =>
    intro m l hn _
    have : l = [] := List.eq_nil_of_length_eq_zero (Nat.le_zero.mp hn)
    subst this
    cases m <;> rfl
  | succ n ih =>
    intro m l hn hm
    match l with
    | [] => cases m <;> rfl
    | c :: cs =>
      match m with
      | 0 => exact absurd hm (by simp)
      | m' + 1 =>
        have hn' : cs.length ≤ n := by simpa using hn
        have hm' : cs.length ≤ m' := by simpa using hm
        have hd : (cs.dropWhile (fun x => !isSpace x)).length ≤ cs.length :=
          (List.dropWhile_sublist _).length_le
        rw [wordsFuel, wordsFuel]
        by_cases hc : isSpace c = true
        · rw [if_pos hc, if_pos hc, ih m' cs hn' hm']
        · rw [if_neg hc, if_neg hc,
            ih m' (cs.dropWhile (fun x => !isSpace x)) (by omega) (by omega)]

/-- Python `sep.join(parts)`. -/
def joinSep (sep : List Char) : List (List Char) → List Char
  | [] => []
  | [x] => x
  | x :: y :: xs => x ++ sep ++ joinSep sep (y :: xs)

/-- Python decimal rendering of a natural number (`str(n)`). -/
def natChars (n : Nat) : List Char := Nat.toDigits 10 n

/-- Python decimal rendering of an integer (`str(i)`). -/
def intChars (i : Int) : List Char :=
  if i < 0 then '-' :: natChars i.natAbs else natChars i.toNat

/-- Python `needle in haystack` for strings (substring test). -/
def containsSub (needle hay : List Char) : Bool :=
  match hay with
  | [] => needle = []
  | _ :: t => needle.isPrefixOf hay || containsSub needle t

/-! ### Lemmas about `words` -/

theorem words_nil : words [] = [] := rfl

theorem words_cons_space {c : Char} (l : List Char) (h : isSpace c = true) :
    words (c :: l) = words l := by
  show wordsFuel (c :: l).length (c :: l) = wordsFuel l.length l
  rw [List.length_cons, wordsFuel, if_pos h]

theorem words_cons_nonspace {c : Char} (l : List Char) (h : isSpace c = false) :
    words (c :: l) =
      (c :: l.takeWhile (fun x => !isSpace x)) ::
        words (l.dropWhile (fun x => !isSpace x)) := by
  show wordsFuel (c :: l).length (c :: l) = _
  rw [List.length_cons, wordsFuel, if_neg (by simp [h])]
  congr 1
  exact wordsFuel_congr l.length (l.dropWhile (fun x => !isSpace x)).length
    (l.dropWhile (fun x => !isSpace x))
    ((List.dropWhile_sublist _).length_le) (Nat.le_refl _)

theorem takeWhile_append_space {c : Char} (hc : isSpace c = true)
    (xs ys : List Char) :
    (xs ++ c :: ys).takeWhile (fun x => !isSpace x) =
      xs.takeWhile (fun x => !isSpace x) := by
  induction xs with
  | nil => simp [List.takeWhile_cons, hc]
  | cons a xs ih =>
    by_cases ha : isSpace a = true
    · simp [List.takeWhile_cons, ha]
    · simp only [Bool.not_eq_true] at ha
      simp [List.takeWhile_cons, ha, ih]

theorem dropWhile_append_space {c : Char} (hc : isSpace c = true)
    (xs ys : List Char) :
    (xs ++ c :: ys).dropWhile (fun x => !isSpace x) =
      xs.dropWhile (fun x => !isSpace x) ++ c :: ys := by
  induction xs with
  | nil => simp [List.dropWhile_cons, hc]
  | cons a xs ih =>
    by_cases ha : isSpace a = true
    · simp [List.dropWhile_cons, ha]
    · simp only [Bool.not_eq_true] at ha
      simp [List.dropWhile_cons, ha, ih]

theorem words_append_space_aux {c : Char} (hc : isSpace c = true) :
    ∀ (n : Nat) (xs : List Char), xs.length ≤ n → ∀ ys : List Char,
      words (xs ++ c :: ys) = words xs ++ words (c :: ys) := by
  intro n
  induction n with
  | zero =>
    intro xs hxs ys
    have : xs = [] := List.eq_nil_of_length_eq_zero (Nat.le_zero.mp hxs)
    simp [this, words_nil]
  | succ n ih =>
    intro xs hxs ys
    match xs with
    | [] => simp [words_nil]
    | a :: xs' =>
      by_cases ha : isSpace a = true
      · rw [List.cons_append, words_cons_space _ ha, words_cons_space _ ha]
        exact ih xs' (by simpa using (by simpa using hxs : xs'.length ≤ n)) ys
      · simp only [Bool.not_eq_true] at ha
        rw [List.cons_append, words_cons_nonspace _ ha, words_cons_nonspace _ ha,
          takeWhile_append_space hc, dropWhile_append_space hc]
        have hlen : (xs'.dropWhile (fun x => !isSpace x)).length ≤ n := by
          have h1 : (xs'.dropWhile (fun x => !isSpace x)).length ≤ xs'.length :=
            (List.dropWhile_sublist _).length_le
          have h2 : xs'.length ≤ n := by simpa using (by simpa using hxs : xs'.length ≤ n)
          omega
        rw [ih _ hlen ys]
        simp

/-- Splitting a string at a whitespace character splits its word list. -/
theorem words_cut {c : Char} (hc : isSpace c = true) (xs ys : List Char) :
    words (xs ++ c :: ys) = words xs ++ words (c :: ys) :=
  words_append_space_aux hc xs.length xs (Nat.le_refl _) ys

theorem words_allspace {l : List Char} (h : ∀ c ∈ l, isSpace c = true) :
    words l = [] := by
  induction l with
  | nil => exact words_nil
  | cons a l ih =>
    rw [words_cons_space _ (h a (by simp))]
    exact ih fun c hcl => h c (by simp [hcl])

theorem words_append_allspace_left {s : List Char}
    (h : ∀ c ∈ s, isSpace c = true) (ys : List Char) :
    words (s ++ ys) = words ys := by
  induction s with
  | nil => simp
  | cons a s ih =>
    rw [List.cons_append, words_cons_space _ (h a (by simp))]
    exact ih fun c hcl => h c (by simp [hcl])

/-- Removing a non-empty all-whitespace separator preserves the word list. -/
theorem words_append_allspace_mid {s : List Char} (hne : s ≠ [])
    (h : ∀ c ∈ s, isSpace c = true) (xs ys : List Char) :
    words (xs ++ s ++ ys) = words xs ++ words ys := by
  match s, hne with
  | c :: s', _ =>
    have hc : isSpace c = true := h c (by simp)
    calc words (xs ++ (c :: s') ++ ys) = words (xs ++ c :: (s' ++ ys)) := by simp
      _ = words xs ++ words (c :: (s' ++ ys)) := words_cut hc xs _
      _ = words xs ++ words (s' ++ ys) := by rw [words_cons_space _ hc]
      _ = words xs ++ words ys := by
          rw [words_append_allspace_left fun d hd => h d (by simp [hd])]

/-- Every token produced by `words` is non-empty and whitespace-free. -/
theorem words_spec :
    ∀ (n : Nat) (l : List Char), l.length ≤ n → ∀ w ∈ words l,
      w ≠ [] ∧ ∀ c ∈ w, isSpace c = false := by
  intro n
  induction n with
  | zero =>
    intro l hl w hw
    have : l = [] := List.eq_nil_of_length_eq_zero (Nat.le_zero.mp hl)
    subst this
    simp [words_nil] at hw
  | succ n ih =>
    intro l hl w hw
    match l with
    | [] => simp [words_nil] at hw
    | a :: l' =>
      by_cases ha : isSpace a = true
      · rw [words_cons_space _ ha] at hw
        exact ih l' (by simpa using (by simpa using hl : l'.length ≤ n)) w hw
      · simp only [Bool.not_eq_true] at ha
        rw [words_cons_nonspace _ ha] at hw
        rcases List.mem_cons.mp hw with h1 | h2
        · subst h1
          refine ⟨by simp, ?_⟩
          intro c hcw
          rcases List.mem_cons.mp hcw with rfl | hc
          · exact ha
          · have := List.mem_takeWhile_imp hc
            simpa using this
        · have hlen : (l'.dropWhile (fun x => !isSpace x)).length ≤ n := by
            have h1 : (l'.dropWhile (fun x => !isSpace x)).length ≤ l'.length :=
              (List.dropWhile_sublist _).length_le
            have h2 : l'.length ≤ n := by simpa using (by simpa using hl : l'.length ≤ n)
            omega
          exact ih _ hlen w h2

/-- A non-empty whitespace-free string is a single word. -/
theorem words_of_word {w : List Char} (hne : w ≠ [])
    (h : ∀ c ∈ w, isSpace c = false) : words w = [w] := by
  match w, hne with
  | a :: w', _ =>
    rw [words_cons_nonspace _ (h a (by simp))]
    have ht : w'.takeWhile (fun x => !isSpace x) = w' :=
      List.takeWhile_eq_self_iff.mpr (by intro x hx; simp [h x (by simp [hx])])
    have hd : w'.dropWhile (fun x => !isSpace x) = [] :=
      List.dropWhile_eq_nil_iff.mpr (by intro x hx; simp [h x (by simp [hx])])
    rw [ht, hd, words_nil]

/-- Joining non-empty whitespace-free tokens with a single space and
re-splitting recovers the tokens. -/
theorem words_joinSep_space {sp : Char} (hsp : isSpace sp = true) :
    ∀ ws : List (List Char),
      (∀ w ∈ ws, w ≠ [] ∧ ∀ c ∈ w, isSpace c = false) →
      words (joinSep [sp] ws) = ws := by
  intro ws
  induction ws with
  | nil => intro _; simp [joinSep, words_nil]
  | cons w ws ih =>
    intro h
    match ws with
    | [] =>
      simp only [joinSep]
      exact words_of_word (h w (by simp)).1 (h w (by simp)).2
    | w₂ :: ws' =>
      have hw := h w (by simp)
      simp only [joinSep]
      have : w ++ [sp] ++ joinSep [sp] (w₂ :: ws') = w ++ sp :: joinSep [sp] (w₂ :: ws') := by
        simp
      rw [this, words_cut hsp, words_cons_space _ hsp,
        words_of_word hw.1 hw.2, ih (fun x hx => h x (by simp [hx]))]
      simp

/-- Re-splitting after joining with a non-empty all-whitespace separator
concatenates the word lists. -/
theorem words_joinSep_ws {sep : List Char} (hne : sep ≠ [])
    (h : ∀ c ∈ sep, isSpace c = true) :
    ∀ ws : List (List Char),
      words (joinSep sep ws) = (ws.map words).flatten := by
  intro ws
  induction ws with
  | nil => simp [joinSep, words_nil]
  | cons w ws ih =>
    match ws with
    | [] => simp [joinSep]
    | w₂ :: ws' =>
      simp only [joinSep]
      rw [words_append_allspace_mid hne h, ih]
      simp

/-! ### A small regex interpreter for the fixed patterns of
`src/utils/legal_chunker.py` and `src/utils/pipeline_validator.py`.

All the patterns used by the repository are sequences of: case-insensitive
literals, small character classes, optional single characters (`X?`),
`\s*`, `\s+`, `\d+`, `[\d.,]+`, `\d*` and `$`.  The interpreter below
implements greedy matching with backtracking, which on single-character
classes coincides with Python `re` semantics. -/

/-- Character classes appearing starred/plussed in the repository's regexes. -/
inductive CC where
  | space
  | digit
  | digitDotComma
deriving DecidableEq

def ccMatch : CC → Char → Bool
  | .space, c => isSpace c
  | .digit, c => isDigit c
  | .digitDotComma, c => isDigit c || c = '.' || c = ','

/-- One element of a regex pattern. -/
inductive Pat where
  /-- a case-insensitive literal character -/
  | lit (c : Char)
  /-- a case-sensitive literal character (patterns without `(?i)`) -/
  | litCS (c : Char)
  /-- a case-insensitive character class `[...]` -/
  | cls (cs : List Char)
  /-- an optional character class `[...]?` / `X?` -/
  | opt (cs : List Char)
  /-- `C*` for a character class `C` -/
  | star (c : CC)
  /-- `C+` for a character class `C` -/
  | plus (c : CC)
  /-- `$` (end of string, or just before a final newline) -/
  | eos
deriving DecidableEq

/-- Greedy backtracking matcher with an explicit fuel argument (every
recursive call strictly decreases `ps.length + l.length`, so any fuel at
least that sum gives the match); structural recursion on the fuel keeps the
function kernel-reducible. -/
def matchFromFuel : Nat → List Pat → List Char → Option Nat
  | _, [], _ => some 0
  | 0, _ :: _, _ => none
  | fuel + 1, p :: ps', l =>
    match p, l with
    | .lit _, [] => none
    | .lit c, x :: l' =>
      if foldChar x = foldChar c then (matchFromFuel fuel ps' l').map (· + 1)
      else none
    | .litCS _, [] => none
    | .litCS c, x :: l' =>
      if x = c then (matchFromFuel fuel ps' l').map (· + 1) else none
    | .cls _, [] => none
    | .cls cs, x :: l' =>
      if (cs.map foldChar).contains (foldChar x) then
        (matchFromFuel fuel ps' l').map (· + 1)
      else none
    | .opt _, [] => matchFromFuel fuel ps' []
    | .opt cs, x :: l' =>
      if (cs.map foldChar).contains (foldChar x) then
        match matchFromFuel fuel ps' l' with
        | some n => some (n + 1)
        | none => matchFromFuel fuel ps' (x :: l')
      else matchFromFuel fuel ps' (x :: l')
    | .star _, [] => matchFromFuel fuel ps' []
    | .star cc, x :: l' =>
      if ccMatch cc x then
        match matchFromFuel fuel (.star cc :: ps') l' with
        | some n => some (n + 1)
        | none => matchFromFuel fuel ps' (x :: l')
      else matchFromFuel fuel ps' (x :: l')
    | .plus _, [] => none
    | .plus cc, x :: l' =>
      if ccMatch cc x then (matchFromFuel fuel (.star cc :: ps') l').map (· + 1)
      else none
    | .eos, l' =>
      if l' = [] ∨ l' = ['\n'] then matchFromFuel fuel ps' l' else none

/-- The length of the match of `ps` at the start of `l`, if any
(Python `re.match` semantics for the patterns above). -/
def matchFrom (ps : List Pat) (l : List Char) : Option Nat :=
  matchFromFuel (ps.length + l.length) ps l

/-- Python `re.search` for an unanchored pattern: leftmost match, returning
the matched substring (`match.group(0)`). -/
def reSearch (ps : List Pat) (l : List Char) : Option (List Char) :=
  match matchFrom ps l with
  | some n => some (l.take n)
  | none =>
    match l with
    | [] => none
    | _ :: l' => reSearch ps l'

/-- Python `re.search` for the `^`-anchored patterns of the chunker's
pattern table (no `re.MULTILINE`, so `^` only matches at the start). -/
def reSearchAnchored (ps : List Pat) (l : List Char) : Bool :=
  (matchFrom ps l).isSome

/-! Pattern notation helpers: `lits "ABC"` is the regex `ABC` (literal,
case-insensitive), `ws0`/`ws1` are `\s*`/`\s+`. -/

def lits (s : String) : List Pat := s.data.map Pat.lit

def ws0 : Pat := .star .space

def ws1 : Pat := .plus .space

/-- Interleaves `\s*` between the given letters, as in
`S\s*E\s*N\s*T\s*E\s*N\s*[CÇ]\s*A`-style patterns. -/
def spaced ( items : List Pat) : List Pat :=
  match items with
  | [] => []
  | [p] => [p]
  | p :: q :: rest => p :: ws0 :: spaced (q :: rest)

namespace LegalChunker

/-- `DOCUMENT_START_PATTERNS` from `src/utils/legal_chunker.py`, in source
order.  Every pattern begins with `(?i)^\s*`; the leading `^` is realised by
`reSearchAnchored` and the `(?i)` by `foldChar`. -/
def DOCUMENT_START_PATTERNS : List (List Pat × List Char) := [
  -- Sentencas e decisoes
  (ws0 :: spaced [.lit 'S', .lit 'E', .lit 'N', .lit 'T', .lit 'E', .lit 'N',
    .cls ['C', 'Ç'], .lit 'A'], pyS "sentenca"),
  (ws0 :: lits "VISTOS" ++ [.opt [',', '.'], ws0] ++ lits "etc" ++ [.opt ['.']],
    pyS "sentenca"),
  (ws0 :: lits "RELATÓRIO" ++ [ws0, .eos], pyS "sentenca"),
  -- Acordaos
  (ws0 :: spaced [.lit 'A', .lit 'C', .cls ['O', 'Ó'], .lit 'R', .lit 'D',
    .cls ['A', 'Ã'], .lit 'O'], pyS "acordao"),
  (ws0 :: lits "EMENTA" ++ [ws0, .lit ':'], pyS "acordao"),
  (ws0 :: spaced [.lit 'V', .lit 'O', .lit 'T', .lit 'O'], pyS "acordao"),
  -- Laudos e pericias
  (ws0 :: lits "LAUDO" ++ ws1 :: lits "PERICIAL", pyS "laudo"),
  (ws0 :: lits "LAUDO" ++ ws1 :: (lits "T" ++ [.cls ['E', 'É']] ++ lits "CNICO"),
    pyS "laudo"),
  (ws0 :: lits "PARECER" ++ ws1 :: (lits "T" ++ [.cls ['E', 'É']] ++ lits "CNICO"),
    pyS "laudo"),
  -- Peticoes
  (ws0 :: (lits "EXCELENT" ++ [.cls ['I', 'Í']] ++ lits "SSIMO"), pyS "peticao"),
  (ws0 :: lits "AO" ++ ws1 :: lits "DOUTO" ++ ws1 :: (lits "JU" ++ [.cls ['I', 'Í']] ++ lits "ZO"),
    pyS "peticao"),
  (ws0 :: (lits "PETI" ++ [.cls ['C', 'Ç'], .cls ['A', 'Ã']] ++ lits "O") ++
    ws1 :: lits "INICIAL", pyS "peticao_inicial"),
  (ws0 :: (lits "CONTESTA" ++ [.cls ['C', 'Ç'], .cls ['A', 'Ã']] ++ lits "O"),
    pyS "contestacao"),
  (ws0 :: lits "RECURSO" ++ ws1 :: (lits "ORDIN" ++ [.cls ['A', 'Á']] ++ lits "RIO"),
    pyS "recurso"),
  -- Calculos
  (ws0 :: (lits "C" ++ [.cls ['A', 'Á']] ++ lits "LCULO") ++ ws1 :: lits "DE" ++
    ws1 :: (lits "LIQUIDA" ++ [.cls ['C', 'Ç'], .cls ['A', 'Ã']] ++ lits "O"),
    pyS "calculo"),
  (ws0 :: lits "DEMONSTRATIVO" ++ ws1 :: lits "DE" ++
    ws1 :: (lits "C" ++ [.cls ['A', 'Á']] ++ lits "LCULO"), pyS "calculo"),
  (ws0 :: (lits "MEM" ++ [.cls ['O', 'Ó']] ++ lits "RIA") ++ ws1 :: lits "DE" ++
    ws1 :: (lits "C" ++ [.cls ['A', 'Á']] ++ lits "LCULO"), pyS "calculo"),
  -- Contratos
  (ws0 :: lits "CONTRATO" ++ ws1 :: lits "DE" ++ ws1 :: lits "TRABALHO",
    pyS "contrato"),
  (ws0 :: lits "TERMO" ++ ws1 :: lits "DE" ++
    ws1 :: (lits "RESCIS" ++ [.cls ['A', 'Ã']] ++ lits "O"), pyS "contrato"),
  -- Atas
  (ws0 :: lits "ATA" ++ ws1 :: lits "DE" ++
    ws1 :: (lits "AUDI" ++ [.cls ['E', 'Ê']] ++ lits "NCIA"), pyS "ata_audiencia"),
  (ws0 :: lits "TERMO" ++ ws1 :: lits "DE" ++
    ws1 :: (lits "AUDI" ++ [.cls ['E', 'Ê']] ++ lits "NCIA"), pyS "ata_audiencia"),
  -- Documentos trabalhistas
  (ws0 :: lits "CTPS", pyS "ctps"),
  (ws0 :: lits "CARTEIRA" ++ ws1 :: lits "DE" ++ ws1 :: lits "TRABALHO", pyS "ctps"),
  (ws0 :: lits "HOLERITE", pyS "holerite"),
  (ws0 :: lits "CONTRACHEQUE", pyS "holerite"),
  (ws0 :: lits "DEMONSTRATIVO" ++ ws1 :: lits "DE" ++ ws1 :: lits "PAGAMENTO",
    pyS "holerite")]

/-- `LOCATION_PATTERNS` from `src/utils/legal_chunker.py` (unanchored; the
capturing group `(\d+)` does not affect `group(0)`). -/
def LOCATION_PATTERNS : List (List Pat) := [
  lits "fl" ++ [.opt ['s'], .lit '.', ws0, .plus .digit],
  lits "fl" ++ [.lit '.', ws0, .plus .digit],
  lits "p" ++ [.cls ['a', 'á']] ++ lits "gina" ++ [ws0, .plus .digit],
  lits "p" ++ [.cls ['a', 'á']] ++ lits "g" ++ [.opt ['.'], ws0, .plus .digit],
  lits "evento" ++ [ws0, .plus .digit],
  lits "id" ++ [.opt ['.'], ws0, .plus .digit]]

/-- `LegalChunk` from `src/utils/legal_chunker.py`. -/
structure LegalChunk where
  chunk_id : List Char
  texto : List Char
  tipo_provavel : List Char
  localizacao_inicio : List Char
  localizacao_fim : List Char
  palavra_count : Nat
deriving DecidableEq, Repr

/-- `LegalChunker._create_chunk`. -/
def createChunk (chunk_id texto tipo loc_inicio loc_fim : List Char) : LegalChunk :=
  { chunk_id := chunk_id
    texto := texto
    tipo_provavel := tipo
    localizacao_inicio := loc_inicio
    localizacao_fim := loc_fim
    palavra_count := (words texto).length }

/-- `LegalChunker._extract_location`: first location pattern matching
anywhere in the text, else the sentinel. -/
def extractLocation (text : List Char) : List Char :=
  match LOCATION_PATTERNS.findSome? (fun p => reSearch p text) with
  | some m => m
  | none => pyS "nao identificado"

/-- `LegalChunker._detect_document_type`: anchored pattern scan over the
first 1000 characters, then full-text keyword heuristics. -/
def detectDocumentType (text : List Char) : List Char :=
  let first_lines := text.take 1000
  match DOCUMENT_START_PATTERNS.findSome?
      (fun pt => if reSearchAnchored pt.1 first_lines then some pt.2 else none) with
  | some doc_type => doc_type
  | none =>
    let text_lower := pyLower text
    if containsSub (pyS "julgo procedente") text_lower ||
        containsSub (pyS "julgo improcedente") text_lower then pyS "sentenca"
    else if containsSub (pyS "acordam os") text_lower ||
        containsSub (pyS "dou provimento") text_lower then pyS "acordao"
    else if containsSub (pyS "perito") text_lower &&
        containsSub (pyS "laudo") text_lower then pyS "laudo"
    else if containsSub (pyS "admissao") text_lower &&
        containsSub (pyS "demissao") text_lower then pyS "ctps"
    else if containsSub (pyS "liquido a receber") text_lower ||
        containsSub (pyS "valor bruto") text_lower then pyS "holerite"
    else pyS "outros"

/-- Python `text.split('\n')` (keeps empty pieces; result is non-empty). -/
def splitNl : List Char → List (List Char)
  | [] => [[]]
  | c :: cs =>
    let r := splitNl cs
    if c = '\n' then [] :: r
    else (c :: r.headD []) :: r.tail

/-- The per-line scan of `_split_by_document_markers`: for each line, the
first matching pattern wins; `current_pos` advances by `len(line) + 1`. -/
def findMarkers : List (List Char) → Nat → List (Nat × List Char × List Char)
  | [], _ => []
  | line :: rest, pos =>
    (match DOCUMENT_START_PATTERNS.findSome?
        (fun pt => if reSearchAnchored pt.1 line then some pt.2 else none) with
     | some doc_type => [(pos, doc_type, (pyStrip line).take 50)]
     | none => []) ++ findMarkers rest (pos + line.length + 1)

/-- Stable insertion sort by a natural-number key; agrees with Python's
stable `sort`/`sorted` for a key function.  `sortByKey` inserts each
element into the sorted tail, so everything already in the accumulator
came after it in the input; placing it before the first element of key
`≥` its own therefore keeps equal-key elements in input order. -/
def insertKey {α : Type} (key : α → Nat) (x : α) : List α → List α
  | [] => [x]
  | y :: ys => if key x ≤ key y then x :: y :: ys else y :: insertKey key x ys

def sortByKey {α : Type} (key : α → Nat) : List α → List α
  | [] => []
  | x :: xs => insertKey key x (sortByKey key xs)

/-- One candidate chunk of `_split_by_document_markers`: the slice
`text[pos:end_pos]`, stripped, kept only when it has at least `min_words`
words. -/
def markerCandidate (min_words : Nat) (text : List Char) (pos : Nat)
    (doc_type : List Char) (end_pos : Nat) (i : Nat) : List LegalChunk :=
  if (words (pyStrip ((text.drop pos).take (end_pos - pos)))).length ≥ min_words then
    [createChunk (pyS "chunk_" ++ natChars i)
      (pyStrip ((text.drop pos).take (end_pos - pos))) doc_type
      (extractLocation ((pyStrip ((text.drop pos).take (end_pos - pos))).take 500))
      (extractLocation ((pyStrip ((text.drop pos).take (end_pos - pos))).drop
        ((pyStrip ((text.drop pos).take (end_pos - pos))).length - 500)))]
  else []

/-- The chunk-building loop of `_split_by_document_markers`: `i` enumerates
the sorted markers; candidates shorter than `min_words` are discarded. -/
def markerChunks (min_words : Nat) (text : List Char) :
    List (Nat × List Char × List Char) → Nat → List LegalChunk
  | [], _ => []
  | (pos, doc_type, _) :: rest, i =>
    markerCandidate min_words text pos doc_type
        (match rest with
         | (next_pos, _, _) :: _ => next_pos
         | [] => text.length) i ++
      markerChunks min_words text rest (i + 1)

/-- `LegalChunker._split_by_document_markers`. -/
def splitByDocumentMarkers (min_words : Nat) (text : List Char) : List LegalChunk :=
  let markers := findMarkers (splitNl text) 0
  if markers = [] then
    [createChunk (pyS "chunk_0") text (pyS "outros") (pyS "inicio") (pyS "fim")]
  else
    markerChunks min_words text (sortByKey (fun m => m.1) markers) 0

/-- Python `re.split(r'\n\s*\n', text)`: the leftmost match of the
separator starting at a given position, if any.  The greedy `\s*`
backtracks to end the match at the last newline of the whitespace run. -/
def lastIdxNl : List Char → Option Nat
  | [] => none
  | c :: cs =>
    match lastIdxNl cs with
    | some j => some (j + 1)
    | none => if c = '\n' then some 0 else none

/-- A `\n\s*\n` match at the head of `l`: the matched separator and the
rest, if the head is a newline whose whitespace run contains another. -/
def trySep (l : List Char) : Option (List Char × List Char) :=
  match l with
  | [] => none
  | c :: cs =>
    if c = '\n' then
      match lastIdxNl (cs.takeWhile isSpace) with
      | some j => some (c :: cs.take (j + 1), cs.drop (j + 1))
      | none => none
    else none

/-- Leftmost `\n\s*\n` separator occurrence: `(prefix, separator, rest)`. -/
def findSep : List Char → Option (List Char × List Char × List Char)
  | [] => none
  | c :: cs =>
    match trySep (c :: cs) with
    | some (sep, rest) => some ([], sep, rest)
    | none =>
      match findSep cs with
      | some (pre, sep, rest) => some (c :: pre, sep, rest)
      | none => none

theorem lastIdxNl_lt_length {l : List Char} {j : Nat} (h : lastIdxNl l = some j) :
    j < l.length := by
  induction l generalizing j with
  | nil => simp [lastIdxNl] at h
  | cons c cs ih =>
    rw [lastIdxNl] at h
    match hcs : lastIdxNl cs with
    | some j' =>
      rw [hcs] at h
      injection h with h
      have := ih hcs
      simp
      omega
    | none =>
      rw [hcs] at h
      by_cases hc : c = '\n'
      · simp [hc] at h
        simp [← h]
      · simp [hc] at h

theorem lastIdxNl_lt {w : List Char} {j : Nat} (h : lastIdxNl w = some j) :
    j < w.length := by
  induction w generalizing j with
  | nil => simp [lastIdxNl] at h
  | cons c cs ih =>
    rw [lastIdxNl] at h
    match hcs : lastIdxNl cs with
    | some j' =>
      rw [hcs] at h
      have hj := ih hcs
      simp only [Option.some.injEq] at h
      simp
      omega
    | none =>
      rw [hcs] at h
      by_cases hc : c = '\n'
      · simp only [hc, if_true, Option.some.injEq] at h
        simp [← h]
      · simp [hc] at h

theorem mem_take_takeWhile_space {cs : List Char} :
    ∀ {j : Nat}, j < (cs.takeWhile isSpace).length →
      ∀ d ∈ cs.take (j + 1), isSpace d = true := by
  induction cs with
  | nil => intro j h; simp [List.takeWhile] at h
  | cons a cs ih =>
    intro j h d hd
    by_cases ha : isSpace a = true
    · rw [List.takeWhile_cons, if_pos ha] at h
      rw [List.take_succ_cons] at hd
      rcases List.mem_cons.mp hd with rfl | hd'
      · exact ha
      · match j with
        | 0 => simp at hd'
        | j' + 1 =>
          exact ih (by simpa using Nat.lt_of_succ_lt_succ h) d hd'
    · rw [List.takeWhile_cons, if_neg ha] at h
      simp at h

theorem trySep_spec {l sep rest : List Char}
    (h : trySep l = some (sep, rest)) :
    l = sep ++ rest ∧ sep ≠ [] ∧ ∀ c ∈ sep, isSpace c = true := by
  match l with
  | [] => simp [trySep] at h
  | c :: cs =>
    rw [trySep] at h
    by_cases hc : c = '\n'
    · simp only [hc, if_true] at h
      match hj : lastIdxNl (cs.takeWhile isSpace) with
      | some j =>
        rw [hj] at h
        simp only [Option.some.injEq, Prod.mk.injEq] at h
        obtain ⟨rfl, rfl⟩ := h
        refine ⟨by simp [hc], by simp, ?_⟩
        intro d hd
        rcases List.mem_cons.mp hd with rfl | hd'
        · simp [isSpace]
        · exact mem_take_takeWhile_space (lastIdxNl_lt hj) d hd'
      | none => rw [hj] at h; exact absurd h (by simp)
    · simp [hc] at h

theorem findSep_spec :
    ∀ (l : List Char) {pre sep rest : List Char},
      findSep l = some (pre, sep, rest) →
      l = pre ++ sep ++ rest ∧ sep ≠ [] ∧ ∀ c ∈ sep, isSpace c = true := by
  intro l
  induction l with
  | nil => intro pre sep rest h; simp [findSep] at h
  | cons c cs ih =>
    intro pre sep rest h
    rw [findSep] at h
    match hts : trySep (c :: cs) with
    | some (sep', rest') =>
      rw [hts] at h
      simp only [Option.some.injEq, Prod.mk.injEq] at h
      obtain ⟨rfl, rfl, rfl⟩ := h
      obtain ⟨heq, hne, hsp⟩ := trySep_spec hts
      exact ⟨by simpa using heq, hne, hsp⟩
    | none =>
      rw [hts] at h
      match hfs : findSep cs with
      | some (pre', sep', rest') =>
        rw [hfs] at h
        simp only [Option.some.injEq, Prod.mk.injEq] at h
        obtain ⟨rfl, rfl, rfl⟩ := h
        obtain ⟨heq, hne, hsp⟩ := ih hfs
        exact ⟨by simp [heq], hne, hsp⟩
      | none => rw [hfs] at h; exact absurd h (by simp)

theorem findSep_rest_lt {l pre sep rest : List Char}
    (h : findSep l = some (pre, sep, rest)) : rest.length < l.length := by
  obtain ⟨heq, hne, -⟩ := findSep_spec l h
  subst heq
  have : 0 < sep.length := List.length_pos.mpr hne
  simp
  omega

/-- Python `re.split(r'\n\s*\n', text)` from `_split_by_paragraphs`, with
fuel (the rest after a separator is strictly shorter, so the string length
is enough fuel). -/
def splitBlankFuel : Nat → List Char → List (List Char)
  | 0, l => [l]
  | fuel + 1, l =>
    match findSep l with
    | none => [l]
    | some (pre, _, rest) => pre :: splitBlankFuel fuel rest

/-- Python `re.split(r'\n\s*\n', text)` from `_split_by_paragraphs`. -/
def splitBlank (l : List Char) : List (List Char) := splitBlankFuel l.length l

/-- `re.split` removes only all-whitespace separators, so the word lists of
the pieces concatenate to the word list of the input. -/
theorem words_splitBlankFuel :
    ∀ (fuel : Nat) (l : List Char), l.length ≤ fuel →
      ((splitBlankFuel fuel l).map words).flatten = words l := by
  intro fuel
  induction fuel with
  | zero =>
    intro l hl
    have : l = [] := List.eq_nil_of_length_eq_zero (Nat.le_zero.mp hl)
    subst this
    simp [splitBlankFuel, words_nil]
  | succ n ih =>
    intro l hl
    rw [splitBlankFuel]
    match hfs : findSep l with
    | none => simp
    | some (pre, sep, rest) =>
      obtain ⟨heq, hne, hsp⟩ := findSep_spec l hfs
      have hlt := findSep_rest_lt hfs
      have hr : rest.length ≤ n := by omega
      simp only [List.map_cons, List.flatten_cons]
      rw [ih rest hr, heq, words_append_allspace_mid hne hsp]

theorem words_splitBlank (l : List Char) :
    ((splitBlank l).map words).flatten = words l :=
  words_splitBlankFuel l.length l (Nat.le_refl _)

/-- The paragraph-accumulation loop of `LegalChunker._split_by_paragraphs`:
state is `(current_text, current_word_count, chunk_index)`. -/
def paraLoop (max_words : Nat) :
    List (List Char) → List (List Char) → Nat → Nat → List LegalChunk
  | [], current_text, _, chunk_index =>
    -- Ultimo chunk
    if current_text ≠ [] then
      [createChunk (pyS "chunk_" ++ natChars chunk_index)
        (joinSep (pyS "\n\n") current_text)
        (detectDocumentType (joinSep (pyS "\n\n") current_text))
        (extractLocation (joinSep (pyS "\n\n") current_text))
        (extractLocation (joinSep (pyS "\n\n") current_text))]
    else []
  | para :: rest, current_text, current_word_count, chunk_index =>
    if pyStrip para = [] then
      paraLoop max_words rest current_text current_word_count chunk_index
    else if current_word_count + (words (pyStrip para)).length > max_words ∧
        current_text ≠ [] then
      createChunk (pyS "chunk_" ++ natChars chunk_index)
          (joinSep (pyS "\n\n") current_text)
          (detectDocumentType (joinSep (pyS "\n\n") current_text))
          (extractLocation (joinSep (pyS "\n\n") current_text))
          (extractLocation (joinSep (pyS "\n\n") current_text)) ::
        paraLoop max_words rest [pyStrip para] (words (pyStrip para)).length
          (chunk_index + 1)
    else
      paraLoop max_words rest (current_text ++ [pyStrip para])
        (current_word_count + (words (pyStrip para)).length) chunk_index

/-- `LegalChunker._split_by_paragraphs`. -/
def splitByParagraphs (max_words : Nat) (text : List Char) : List LegalChunk :=
  paraLoop max_words (splitBlank text) [] 0 0

/-- The word windows `words[i:i+max_words]` of `_split_large_chunk`
(`range(0, len(words), max_words)`); `i` is the running word offset and the
fuel is the number of remaining words (each step consumes at least one).
`max_words = 0` makes Python's `range` raise; it is modelled as no output
and excluded by the `1 ≤ max_words` hypothesis of every theorem below. -/
def largeChunkLoop (c : LegalChunk) (tipo loci locf : List Char)
    (max_words : Nat) : Nat → List (List Char) → Nat → List LegalChunk
  | _, [], _ => []
  | 0, _ :: _, _ => []
  | fuel + 1, w :: ws, i =>
    if max_words = 0 then []
    else
      createChunk (c.chunk_id ++ '_' :: natChars (i / max_words))
          (joinSep [' '] ((w :: ws).take max_words)) tipo loci locf ::
        largeChunkLoop c tipo loci locf max_words fuel
          ((w :: ws).drop max_words) (i + max_words)

/-- `LegalChunker._split_large_chunk`. -/
def splitLargeChunk (max_words : Nat) (c : LegalChunk) : List LegalChunk :=
  largeChunkLoop c c.tipo_provavel c.localizacao_inicio c.localizacao_fim
    max_words (words c.texto).length (words c.texto) 0

/-- The renumbering pass at the end of `_enforce_size_limits`
(`chunk.chunk_id = f"chunk_{i}"`). -/
def renumber : Nat → List LegalChunk → List LegalChunk
  | _, [] => []
  | i, c :: cs => { c with chunk_id := pyS "chunk_" ++ natChars i } :: renumber (i + 1) cs

/-- `LegalChunker._enforce_size_limits`. -/
def enforceSizeLimits (max_words : Nat) (chunks : List LegalChunk) : List LegalChunk :=
  renumber 0 (chunks.flatMap fun c =>
    if c.palavra_count ≤ max_words then [c] else splitLargeChunk max_words c)

/-- `LegalChunker.chunk`: the Layer-1 entry point. -/
def chunk (max_words min_words : Nat) (text : List Char) : List LegalChunk :=
  if text = [] ∨ pyStrip text = [] then []
  else
    enforceSizeLimits max_words
      (if (splitByDocumentMarkers min_words text).length ≤ 1 then
        splitByParagraphs max_words text
      else splitByDocumentMarkers min_words text)

/-! ### Lemmas about the chunker -/

theorem words_dropWhile (l : List Char) :
    words (l.dropWhile isSpace) = words l := by
  induction l with
  | nil => simp
  | cons c cs ih =>
    by_cases hc : isSpace c = true
    · rw [List.dropWhile_cons, if_pos hc, ih, words_cons_space _ hc]
    · rw [List.dropWhile_cons, if_neg (by simp [hc])]

theorem words_append_allspace_right {run : List Char}
    (h : ∀ c ∈ run, isSpace c = true) (xs : List Char) :
    words (xs ++ run) = words xs := by
  match run with
  | [] => simp
  | c :: run' =>
    have := words_append_allspace_mid (s := c :: run') (by simp) h xs []
    simpa [words_nil] using this

theorem words_rstrip (l : List Char) :
    words ((l.reverse.dropWhile isSpace).reverse) = words l := by
  have hsplit : l = (l.reverse.dropWhile isSpace).reverse ++
      (l.reverse.takeWhile isSpace).reverse := by
    conv_lhs => rw [← l.reverse_reverse,
      ← List.takeWhile_append_dropWhile (p := isSpace) (l := l.reverse)]
    rw [List.reverse_append]
  conv_rhs => rw [hsplit]
  rw [words_append_allspace_right]
  intro c hc
  exact List.mem_takeWhile_imp (List.mem_reverse.mp hc)

theorem words_pyStrip (l : List Char) : words (pyStrip l) = words l := by
  unfold pyStrip
  rw [words_rstrip (l.dropWhile isSpace), words_dropWhile]

theorem words_of_pyStrip_nil {l : List Char} (h : pyStrip l = []) :
    words l = [] := by
  rw [← words_pyStrip, h, words_nil]

/-- Well-formedness of a chunk: the stored word count is the word count of
the stored text.  Every chunk built by `createChunk` satisfies it. -/
def chunkWf (c : LegalChunk) : Prop :=
  c.palavra_count = (words c.texto).length

theorem createChunk_wf (chunk_id texto tipo li lf : List Char) :
    chunkWf (createChunk chunk_id texto tipo li lf) := rfl

theorem markerChunks_wf (min_words : Nat) (text : List Char) :
    ∀ (ms : List (Nat × List Char × List Char)) (i : Nat),
      ∀ c ∈ markerChunks min_words text ms i, chunkWf c := by
  intro ms
  induction ms with
  | nil => intro i c hc; simp [markerChunks] at hc
  | cons m rest ih =>
    intro i c hc
    match m with
    | (pos, doc_type, third) =>
      simp only [markerChunks] at hc
      rcases List.mem_append.mp hc with h1 | h2
      · rw [markerCandidate] at h1
        split at h1
        · rcases List.mem_singleton.mp h1 with rfl
          exact createChunk_wf _ _ _ _ _
        · simp at h1
      · exact ih (i + 1) c h2

theorem splitByDocumentMarkers_wf (min_words : Nat) (text : List Char) :
    ∀ c ∈ splitByDocumentMarkers min_words text, chunkWf c := by
  intro c hc
  unfold splitByDocumentMarkers at hc
  by_cases hm : findMarkers (splitNl text) 0 = []
  · rw [if_pos hm] at hc
    rcases List.mem_singleton.mp hc with rfl
    exact createChunk_wf _ _ _ _ _
  · rw [if_neg hm] at hc
    exact markerChunks_wf min_words text _ 0 c hc

theorem paraLoop_wf (max_words : Nat) :
    ∀ (ps cur : List (List Char)) (cnt idx : Nat),
      ∀ c ∈ paraLoop max_words ps cur cnt idx, chunkWf c := by
  intro ps
  induction ps with
  | nil =>
    intro cur cnt idx c hc
    rw [paraLoop] at hc
    by_cases hcur : cur ≠ []
    · rw [if_pos hcur] at hc
      rcases List.mem_singleton.mp hc with rfl
      exact createChunk_wf _ _ _ _ _
    · rw [if_neg hcur] at hc
      simp at hc
  | cons para rest ih =>
    intro cur cnt idx c hc
    rw [paraLoop] at hc
    split at hc
    · exact ih cur cnt idx c hc
    · split at hc
      · rcases List.mem_cons.mp hc with rfl | h2
        · exact createChunk_wf _ _ _ _ _
        · exact ih _ _ _ c h2
      · exact ih _ _ _ c hc

/-- The word lists flushed by the paragraph loop concatenate to the word
lists of the pending paragraphs followed by the remaining paragraphs. -/
theorem paraLoop_words (max_words : Nat) :
    ∀ (ps cur : List (List Char)) (cnt idx : Nat),
      (paraLoop max_words ps cur cnt idx).flatMap (fun c => words c.texto) =
        (cur.map words).flatten ++ (ps.map words).flatten := by
  intro ps
  induction ps with
  | nil =>
    intro cur cnt idx
    rw [paraLoop]
    by_cases hcur : cur ≠ []
    · rw [if_pos hcur]
      simp only [List.flatMap_cons, List.flatMap_nil, List.append_nil,
        List.map_nil, List.flatten_nil, createChunk]
      exact words_joinSep_ws (by simp [pyS]) (by decide) cur
    · rw [if_neg hcur]
      simp only [ne_eq, not_not] at hcur
      simp [hcur]
  | cons para rest ih =>
    intro cur cnt idx
    rw [paraLoop]
    split
    · rename_i hp
      have hw : words para = [] := by rw [← words_pyStrip, hp, words_nil]
      rw [ih cur cnt idx]
      simp [hw]
    · split
      · simp only [List.flatMap_cons, createChunk]
        rw [ih [pyStrip para] _ _, words_joinSep_ws (by simp [pyS]) (by decide) cur]
        simp [words_pyStrip]
      · rw [ih _ _ _]
        simp [words_pyStrip]

theorem splitByParagraphs_words (max_words : Nat) (text : List Char) :
    (splitByParagraphs max_words text).flatMap (fun c => words c.texto) =
      words text := by
  unfold splitByParagraphs
  rw [paraLoop_words]
  simpa using words_splitBlank text

theorem largeChunkLoop_words (c : LegalChunk) (tipo li lf : List Char)
    (maxw : Nat) :
    ∀ (fuel : Nat) (ws : List (List Char)), ws.length ≤ fuel →
      (∀ w ∈ ws, w ≠ [] ∧ ∀ ch ∈ w, isSpace ch = false) →
      ∀ i, (largeChunkLoop c tipo li lf (maxw + 1) fuel ws i).flatMap
        (fun c' => words c'.texto) = ws := by
  intro fuel
  induction fuel with
  | zero =>
    intro ws hlen hspec i
    have : ws = [] := List.eq_nil_of_length_eq_zero (Nat.le_zero.mp hlen)
    subst this
    rfl
  | succ n ih =>
    intro ws hlen hspec i
    match ws with
    | [] => rfl
    | w :: ws' =>
      rw [largeChunkLoop, if_neg (by omega)]
      simp only [List.flatMap_cons, createChunk]
      have htake : words (joinSep [' '] ((w :: ws').take (maxw + 1))) =
          (w :: ws').take (maxw + 1) := by
        refine words_joinSep_space (by decide) _ ?_
        intro x hx
        exact hspec x (List.take_subset _ _ hx)
      rw [htake]
      have hdlen : ((w :: ws').drop (maxw + 1)).length ≤ n := by
        have := List.length_drop (maxw + 1) (w :: ws')
        simp at hlen ⊢
        omega
      rw [ih _ hdlen (fun x hx => hspec x (List.drop_subset _ _ hx)) (i + (maxw + 1))]
      exact List.take_append_drop _ _

theorem largeChunkLoop_bound (c : LegalChunk) (tipo li lf : List Char)
    (maxw : Nat) :
    ∀ (fuel : Nat) (ws : List (List Char)), ws.length ≤ fuel →
      (∀ w ∈ ws, w ≠ [] ∧ ∀ ch ∈ w, isSpace ch = false) →
      ∀ i, ∀ c' ∈ largeChunkLoop c tipo li lf (maxw + 1) fuel ws i,
        c'.palavra_count ≤ maxw + 1 ∧ chunkWf c' := by
  intro fuel
  induction fuel with
  | zero =>
    intro ws hlen hspec i c' hc'
    have : ws = [] := List.eq_nil_of_length_eq_zero (Nat.le_zero.mp hlen)
    subst this
    simp [largeChunkLoop] at hc'
  | succ n ih =>
    intro ws hlen hspec i c' hc'
    match ws with
    | [] => simp [largeChunkLoop] at hc'
    | w :: ws' =>
      rw [largeChunkLoop, if_neg (by omega)] at hc'
      rcases List.mem_cons.mp hc' with rfl | h2
      · refine ⟨?_, createChunk_wf _ _ _ _ _⟩
        show (words (joinSep [' '] ((w :: ws').take (maxw + 1)))).length ≤ maxw + 1
        have htake : words (joinSep [' '] ((w :: ws').take (maxw + 1))) =
            (w :: ws').take (maxw + 1) := by
          refine words_joinSep_space (by decide) _ ?_
          intro x hx
          exact hspec x (List.take_subset _ _ hx)
        rw [htake]
        exact List.length_take_le _ _
      · have hdlen : ((w :: ws').drop (maxw + 1)).length ≤ n := by
          have := List.length_drop (maxw + 1) (w :: ws')
          simp at hlen ⊢
          omega
        exact ih _ hdlen (fun x hx => hspec x (List.drop_subset _ _ hx)) _ c' h2

theorem renumber_flatMap_words (cs : List LegalChunk) :
    ∀ i, (renumber i cs).flatMap (fun c => words c.texto) =
      cs.flatMap (fun c => words c.texto) := by
  induction cs with
  | nil => intro i; rfl
  | cons c cs ih => intro i; simp [renumber, ih]

theorem renumber_mem {cs : List LegalChunk} {i : Nat} {c' : LegalChunk}
    (h : c' ∈ renumber i cs) :
    ∃ c ∈ cs, c'.texto = c.texto ∧ c'.palavra_count = c.palavra_count := by
  induction cs generalizing i with
  | nil => simp [renumber] at h
  | cons c cs ih =>
    rw [renumber] at h
    rcases List.mem_cons.mp h with rfl | h2
    · exact ⟨c, by simp⟩
    · obtain ⟨d, hd, he⟩ := ih h2
      exact ⟨d, by simp [hd], he⟩

theorem renumber_get (cs : List LegalChunk) :
    ∀ (i k : Nat) (h : k < (renumber i cs).length),
      ((renumber i cs).get ⟨k, h⟩).chunk_id = pyS "chunk_" ++ natChars (i + k) := by
  induction cs with
  | nil => intro i k h; simp [renumber] at h
  | cons c cs ih =>
    intro i k h
    match k with
    | 0 => simp [renumber]
    | k' + 1 =>
      simp only [renumber, List.get_cons_succ]
      rw [ih (i + 1) k' (by simpa [renumber] using h)]
      have harith : i + 1 + k' = i + (k' + 1) := by omega
      rw [harith]

theorem splitByParagraphs_wf (max_words : Nat) (text : List Char) :
    ∀ c ∈ splitByParagraphs max_words text, chunkWf c :=
  paraLoop_wf max_words (splitBlank text) [] 0 0

/-- Dummy chunk used as the (never-inspected) default of `List.getD`. -/
def defaultChunk : LegalChunk := createChunk [] [] [] [] []

theorem renumber_getD (cs : List LegalChunk) :
    ∀ (i k : Nat), k < (renumber i cs).length →
      ((renumber i cs).getD k defaultChunk).chunk_id =
        pyS "chunk_" ++ natChars (i + k) := by
  induction cs with
  | nil => intro i k h; simp [renumber] at h
  | cons c cs ih =>
    intro i k h
    match k with
    | 0 => simp [renumber]
    | k' + 1 =>
      simp only [renumber, List.getD_cons_succ]
      rw [ih (i + 1) k' (by simpa [renumber] using h)]
      have harith : i + 1 + k' = i + (k' + 1) := by omega
      rw [harith]

theorem enforceSizeLimits_words {max_words : Nat} (hmax : 1 ≤ max_words)
    {cs : List LegalChunk} (hwf : ∀ c ∈ cs, chunkWf c) :
    (enforceSizeLimits max_words cs).flatMap (fun c => words c.texto) =
      cs.flatMap (fun c => words c.texto) := by
  unfold enforceSizeLimits
  rw [renumber_flatMap_words]
  induction cs with
  | nil => rfl
  | cons c cs ih =>
    simp only [List.flatMap_cons, List.flatMap_append]
    rw [ih (fun d hd => hwf d (by simp [hd]))]
    congr 1
    by_cases hle : c.palavra_count ≤ max_words
    · simp [hle]
    · rw [if_neg hle]
      match max_words, hmax with
      | maxw + 1, _ =>
        unfold splitLargeChunk
        rw [largeChunkLoop_words c _ _ _ maxw (words c.texto).length
          (words c.texto) (Nat.le_refl _)
          (fun w hw => words_spec c.texto.length c.texto (Nat.le_refl _) w hw) 0]

theorem enforceSizeLimits_bound {max_words : Nat} (hmax : 1 ≤ max_words)
    {cs : List LegalChunk} (hwf : ∀ c ∈ cs, chunkWf c) :
    ∀ c' ∈ enforceSizeLimits max_words cs,
      c'.palavra_count ≤ max_words ∧ chunkWf c' := by
  intro c' hc'
  unfold enforceSizeLimits at hc'
  obtain ⟨d, hd, hte, hpc⟩ := renumber_mem hc'
  have hd' : d.palavra_count ≤ max_words ∧ chunkWf d := by
    rcases List.mem_flatMap.mp hd with ⟨e, he, hde⟩
    by_cases hle : e.palavra_count ≤ max_words
    · rw [if_pos hle] at hde
      rw [show d = e from List.mem_singleton.mp hde]
      exact ⟨hle, hwf e he⟩
    · rw [if_neg hle] at hde
      match max_words, hmax with
      | maxw + 1, _ =>
        unfold splitLargeChunk at hde
        exact largeChunkLoop_bound e _ _ _ maxw (words e.texto).length
          (words e.texto) (Nat.le_refl _)
          (fun w hw => words_spec e.texto.length e.texto (Nat.le_refl _) w hw)
          0 d hde
  constructor
  · omega
  · unfold chunkWf at hd' ⊢
    rw [hpc, hte]
    exact hd'.2

theorem chunk_wf_all (max_words min_words : Nat) (hmax : 1 ≤ max_words)
    (text : List Char) :
    ∀ c ∈ chunk max_words min_words text,
      c.palavra_count ≤ max_words ∧ chunkWf c := by
  intro c hc
  unfold chunk at hc
  split at hc
  · simp at hc
  · split at hc
    · exact enforceSizeLimits_bound hmax
        (splitByParagraphs_wf max_words text) c hc
    · exact enforceSizeLimits_bound hmax
        (splitByDocumentMarkers_wf min_words text) c hc

/-- C7: For every input text and every chunk in the list returned by
`LegalChunker.chunk`, the chunk's word count (`palavra_count`, the length of
the whitespace-split token list of its text) is at most the `max_words`
value configured at construction, and after post-processing the chunk IDs
are renumbered sequentially as `chunk_0`, `chunk_1`, ... in output order.
(`max_words = 0` would make Python's `range(0, n, 0)` raise, so the claim
is read over positive configured bounds.) -/
theorem C7_chunk_size_bound_and_sequential_ids
    (max_words min_words : Nat) (hmax : 1 ≤ max_words) (text : List Char) :
    (∀ c ∈ chunk max_words min_words text,
      c.palavra_count ≤ max_words ∧
        c.palavra_count = (words c.texto).length) ∧
    ∀ k : Nat, k < (chunk max_words min_words text).length →
      ((chunk max_words min_words text).getD k defaultChunk).chunk_id =
        pyS "chunk_" ++ natChars k := by
  refine ⟨chunk_wf_all max_words min_words hmax text, ?_⟩
  intro k h
  by_cases hguard : text = [] ∨ pyStrip text = []
  · exfalso
    unfold chunk at h
    rw [if_pos hguard] at h
    simp at h
  · unfold chunk at h ⊢
    rw [if_neg hguard] at h ⊢
    unfold enforceSizeLimits at h ⊢
    rw [renumber_getD _ 0 k h]
    rw [Nat.zero_add]

/-- C6 (amended): on the paragraph-splitting path — taken exactly when the
marker-based split produces at most one chunk — concatenating the word
sequences of all returned chunks reconstructs the word sequence of the
entire input (coverage up to the whitespace removed at split boundaries).
When the marker path produces two or more chunks, text before the first
marker and candidates shorter than `min_words` are dropped (see the
counterexample). -/
theorem C6_paragraph_path_coverage
    (max_words min_words : Nat) (hmax : 1 ≤ max_words) (text : List Char)
    (hmarkers : (splitByDocumentMarkers min_words text).length ≤ 1) :
    (chunk max_words min_words text).flatMap (fun c => words c.texto) =
      words text := by
  by_cases hguard : text = [] ∨ pyStrip text = []
  · unfold chunk
    rw [if_pos hguard]
    rcases hguard with rfl | hstrip
    · simp [words_nil]
    · simp [words_of_pyStrip_nil hstrip]
  · unfold chunk
    rw [if_neg hguard, if_pos hmarkers,
      enforceSizeLimits_words hmax (splitByParagraphs_wf max_words text),
      splitByParagraphs_words]

/-- C6 as stated is false: with two marker-delimited candidates, the text
before the first marker (here the word `perdido`) appears in no chunk. -/
theorem C6_counterexample :
    pyS "perdido" ∈ words (pyS "perdido\nSENTENCA um dois\nEMENTA: tres quatro") ∧
    pyS "perdido" ∉
      (chunk 50 1 (pyS "perdido\nSENTENCA um dois\nEMENTA: tres quatro")).flatMap
        (fun c => words c.texto) := by
  constructor
  · decide
  · decide

/-- Witness for C6 (amended) at a concrete input on the paragraph path. -/
theorem C6_witness :
    1 ≤ 3 ∧ (splitByDocumentMarkers 1 (pyS "a b\n\nc d")).length ≤ 1 ∧
    (chunk 3 1 (pyS "a b\n\nc d")).flatMap (fun c => words c.texto) =
      words (pyS "a b\n\nc d") :=
  ⟨by decide, by decide,
    C6_paragraph_path_coverage 3 1 (by decide) (pyS "a b\n\nc d") (by decide)⟩

/-- Witness for C7 at a concrete input whose single paragraph exceeds
`max_words` and is re-split into word windows. -/
theorem C7_witness :
    1 ≤ 2 ∧
    ((∀ c ∈ chunk 2 1 (pyS "um dois tres quatro cinco"),
      c.palavra_count ≤ 2 ∧ c.palavra_count = (words c.texto).length) ∧
    ∀ k : Nat, k < (chunk 2 1 (pyS "um dois tres quatro cinco")).length →
      ((chunk 2 1 (pyS "um dois tres quatro cinco")).getD k defaultChunk).chunk_id =
        pyS "chunk_" ++ natChars k) :=
  ⟨by decide,
    C7_chunk_size_bound_and_sequential_ids 2 1 (by decide)
      (pyS "um dois tres quatro cinco")⟩

end LegalChunker

/-! ### `src/custom_types/extraction_types.py` and
`src/custom_types/process_memory.py` -/

/-- `TipoEvento` enumeration. -/
inductive TipoEvento where
  | sentenca | acordao | laudo | ctps | holerite | peticao_inicial
  | contestacao | recurso | despacho | calculo | contrato
  | documento_pessoal | ata_audiencia | procuracao | outros
deriving DecidableEq, Repr

/-- The `.value` string of a `TipoEvento` member. -/
def TipoEvento.value : TipoEvento → List Char
  | .sentenca => pyS "sentenca"
  | .acordao => pyS "acordao"
  | .laudo => pyS "laudo"
  | .ctps => pyS "ctps"
  | .holerite => pyS "holerite"
  | .peticao_inicial => pyS "peticao_inicial"
  | .contestacao => pyS "contestacao"
  | .recurso => pyS "recurso"
  | .despacho => pyS "despacho"
  | .calculo => pyS "calculo"
  | .contrato => pyS "contrato"
  | .documento_pessoal => pyS "documento_pessoal"
  | .ata_audiencia => pyS "ata_audiencia"
  | .procuracao => pyS "procuracao"
  | .outros => pyS "outros"

/-- A Python value stored in `ChunkExtraction.parametros` (`Any` in the
source; the pipeline stores strings, integers and `None` there — `float`
values are outside this embedding). -/
inductive PVal where
  | s (v : List Char)
  | i (v : Int)
  | none
deriving DecidableEq, Repr

/-- `ProcessMemory._normalize_value`. -/
def normalizeValue : PVal → List Char
  | .none => pyS "none"
  | .s v => pyLower (pyStrip v)
  | .i n => intChars n

/-- `ProcessMemory._get_priority` (total on the enumeration; the
`priority_map.get(tipo_evento, 99)` default is unreachable). -/
def getPriority : TipoEvento → Nat
  | .sentenca => 1
  | .acordao => 2
  | .laudo => 3
  | .calculo => 4
  | .ctps => 5
  | .holerite => 6
  | .contrato => 7
  | .peticao_inicial => 8
  | .contestacao => 9
  | .recurso => 10
  | .ata_audiencia => 11
  | .despacho => 12
  | .procuracao => 13
  | .documento_pessoal => 14
  | .outros => 99

/-- `ChunkExtraction`; `temas` holds the `.value` strings of the `Tema`
enumeration (the `Tema` members carry no structure beyond their string). -/
structure ChunkExtraction where
  chunk_id : List Char
  tipo_evento : TipoEvento
  temas : List (List Char)
  fatos_literais : List (List Char)
  parametros : List (List Char × PVal)
  localizacao : List Char
  texto_original : List Char
  confianca : Rat := 1

/-- `Conflict`. -/
structure Conflict where
  tema : List Char
  campo : List Char
  valor_1 : PVal
  fonte_1 : List Char
  valor_2 : PVal
  fonte_2 : List Char
  resolucao : Option (List Char) := Option.none
  fonte_escolhida : Option (List Char) := Option.none
deriving DecidableEq

/-- `ValidationSeverity`. -/
inductive ValidationSeverity where
  | error
  | warning
deriving DecidableEq, Repr

/-- `Gap`. -/
structure Gap where
  tema : List Char
  campo : List Char
  descricao : List Char
  severidade : ValidationSeverity := .warning
deriving DecidableEq

/-- `ProcessMemory`: insertion-ordered Python dicts are association
lists. -/
structure ProcessMemory where
  extractions : List ChunkExtraction := []
  by_tema : List (List Char × List ChunkExtraction) := []
  by_evento : List (List Char × List ChunkExtraction) := []
  parametros_index :
    List (List Char × List (List Char × List (PVal × List Char × TipoEvento))) := []

/-- Python dict lookup (`d.get(k)` / `k in d`). -/
def lookupD {κ ν : Type} [DecidableEq κ] : List (κ × ν) → κ → Option ν
  | [], _ => Option.none
  | (k', v) :: rest, k => if k' = k then some v else lookupD rest k

/-- Python `d[k] = v`: replace in place, else append. -/
def dictSet {κ ν : Type} [DecidableEq κ] : List (κ × ν) → κ → ν → List (κ × ν)
  | [], k, v => [(k, v)]
  | (k', v') :: rest, k, v =>
    if k' = k then (k, v) :: rest else (k', v') :: dictSet rest k v

/-- Python `defaultdict(list)` `d[k].append(v)`: append to the entry in
place, creating `[v]` at the end for a missing key. -/
def dictAppend {κ ν : Type} [DecidableEq κ] :
    List (κ × List ν) → κ → ν → List (κ × List ν)
  | [], k, v => [(k, [v])]
  | (k', vs) :: rest, k, v =>
    if k' = k then (k', vs ++ [v]) :: rest else (k', vs) :: dictAppend rest k v

/-- Python `defaultdict(lambda: defaultdict(list))` two-level append
(`d[k1][k2].append(v)`). -/
def dictAppend2 {κ ν : Type} [DecidableEq κ] :
    List (κ × List (κ × List ν)) → κ → κ → ν → List (κ × List (κ × List ν))
  | [], k1, k2, v => [(k1, [(k2, [v])])]
  | (k', inner) :: rest, k1, k2, v =>
    if k' = k1 then (k', dictAppend inner k2 v) :: rest
    else (k', inner) :: dictAppend2 rest k1 k2 v

/-- Python `defaultdict` `d[k]` (`__getitem__`): returns the entry, or
inserts and returns the default for a missing key (the mutation is the
point of threading the dict through the queries below). -/
def ddGet {κ ν : Type} [DecidableEq κ] (d : List (κ × ν)) (k : κ) (default : ν) :
    ν × List (κ × ν) :=
  match lookupD d k with
  | some v => (v, d)
  | Option.none => (default, d ++ [(k, default)])

/-- `ProcessMemory.add_extraction`. -/
def addExtraction (m : ProcessMemory) (e : ChunkExtraction) : ProcessMemory :=
  { extractions := m.extractions ++ [e]
    -- Indexa por tema
    by_tema := e.temas.foldl (fun d tema => dictAppend d tema e) m.by_tema
    -- Indexa por tipo de evento
    by_evento := dictAppend m.by_evento e.tipo_evento.value e
    -- Indexa parametros para deteccao de conflitos
    parametros_index := e.temas.foldl (fun d tema =>
      e.parametros.foldl (fun d' kv =>
        dictAppend2 d' tema kv.1 (kv.2, e.localizacao, e.tipo_evento)) d)
      m.parametros_index }

/-- `ProcessMemory.add_extractions`. -/
def addExtractions (m : ProcessMemory) (es : List ChunkExtraction) : ProcessMemory :=
  es.foldl addExtraction m

/-! All query operations are embedded with the uniform type
`ProcessMemory → ... → result × ProcessMemory`, where the returned memory
reflects any mutation Python dict semantics could perform (`defaultdict`
`[]`-indexing inserts missing keys; `.get`, `in` and `.items()` do not).
Claim C10 is that the returned memory always equals the argument. -/

/-- `ProcessMemory.get_by_tema` (uses `.get(tema.value, [])`). -/
def getByTema (m : ProcessMemory) (tema : List Char) :
    List ChunkExtraction × ProcessMemory :=
  ((lookupD m.by_tema tema).getD [], m)

/-- `ProcessMemory.get_by_evento` (uses `.get(tipo_evento.value, [])`). -/
def getByEvento (m : ProcessMemory) (tipo_evento : TipoEvento) :
    List ChunkExtraction × ProcessMemory :=
  ((lookupD m.by_evento tipo_evento.value).getD [], m)

/-- `ProcessMemory.get_all_temas`; the Python `set` is modelled as a
first-occurrence-ordered deduplicated list (set iteration order is not
observable through any claim). -/
def getAllTemas (m : ProcessMemory) : List (List Char) × ProcessMemory :=
  (m.extractions.foldl (fun acc e =>
    e.temas.foldl (fun acc' t => if t ∈ acc' then acc' else acc' ++ [t]) acc) [],
   m)

/-- `ProcessMemory.get_all_eventos` (same `set` modelling). -/
def getAllEventos (m : ProcessMemory) : List TipoEvento × ProcessMemory :=
  (m.extractions.foldl (fun acc e =>
    if e.tipo_evento ∈ acc then acc else acc ++ [e.tipo_evento]) [],
   m)

/-- Default for the `[0]` indexing of a conflict group; groups built by
`dictAppend` are never empty, so it is never inspected. -/
def emptyTriple : PVal × List Char × TipoEvento := (PVal.none, [], .outros)

/-- The `unique_values` grouping of `detect_conflicts`
(`defaultdict(list)` keyed by the normalized value). -/
def groupByNormalized (values : List (PVal × List Char × TipoEvento)) :
    List (List Char × List (PVal × List Char × TipoEvento)) :=
  values.foldl (fun acc v => dictAppend acc (normalizeValue v.1) v) []

/-- The conflicts `detect_conflicts` emits for one `(tema, campo)` entry of
the parameter index. -/
def conflictsForKey (tema campo : List Char)
    (values : List (PVal × List Char × TipoEvento)) : List Conflict :=
  if values.length < 2 then []
  else if 1 < (groupByNormalized values).length then
    match LegalChunker.sortByKey (fun g => getPriority (g.2.headD emptyTriple).2.2)
        (groupByNormalized values) with
    | [] => []
    | primaryG :: restG =>
      restG.map (fun g =>
        { tema := tema
          campo := campo
          valor_1 := (primaryG.2.headD emptyTriple).1
          fonte_1 := (primaryG.2.headD emptyTriple).2.1
          valor_2 := (g.2.headD emptyTriple).1
          fonte_2 := (g.2.headD emptyTriple).2.1
          resolucao := some (pyS "Preferencia: " ++
            (primaryG.2.headD emptyTriple).2.2.value ++ pyS " > " ++
            (g.2.headD emptyTriple).2.2.value)
          fonte_escolhida := some (primaryG.2.headD emptyTriple).2.1 })
  else []

/-- `ProcessMemory.detect_conflicts` (pure iteration over `.items()`; the
`Tema(tema_str)` round-trip is the identity in the string model of
`Tema`). -/
def detectConflicts (m : ProcessMemory) : List Conflict × ProcessMemory :=
  (m.parametros_index.flatMap (fun tp =>
    tp.2.flatMap (fun kv => conflictsForKey tp.1 kv.1 kv.2)), m)

/-- The `expected_fields` table of `detect_gaps`, in source order. -/
def expectedFields :
    List (List Char × List (List Char × List Char × ValidationSeverity)) := [
  (pyS "horas_extras", [
    (pyS "percentual", pyS "Percentual de horas extras", .error),
    (pyS "periodo", pyS "Periodo de apuracao", .warning)]),
  (pyS "jornada", [
    (pyS "horario_entrada", pyS "Horario de entrada", .warning),
    (pyS "horario_saida", pyS "Horario de saida", .warning)]),
  (pyS "fgts", [
    (pyS "percentual", pyS "Percentual do FGTS", .warning),
    (pyS "periodo", pyS "Periodo de deposito", .warning)]),
  (pyS "adicional_noturno", [
    (pyS "percentual", pyS "Percentual do adicional noturno", .error)]),
  (pyS "salario", [
    (pyS "valor", pyS "Valor do salario", .error)]),
  (pyS "vinculo_empregaticio", [
    (pyS "data_admissao", pyS "Data de admissao", .error),
    (pyS "data_demissao", pyS "Data de demissao", .warning)])]

/-- The inner field loop of `detect_gaps`: evaluates
`field_name not in params or not params[field_name]` with Python's
short-circuit (the `defaultdict` indexing only runs when the key is
present), threading the (aliased) `params` dict. -/
def gapsFieldLoop (tema : List Char)
    (fields : List (List Char × List Char × ValidationSeverity)) :
    List (List Char × List (PVal × List Char × TipoEvento)) →
      List Gap × List (List Char × List (PVal × List Char × TipoEvento))
  | params =>
    match fields with
    | [] => ([], params)
    | (field_name, field_desc, severity) :: rest =>
      let condAndParams :
          Bool × List (List Char × List (PVal × List Char × TipoEvento)) :=
        match lookupD params field_name with
        | Option.none => (true, params)
        | some _ =>
          match ddGet params field_name [] with
          | (vs, params') => (vs = [], params')
      let (gaps, params'') := gapsFieldLoop tema rest condAndParams.2
      (if condAndParams.1 then
        { tema := tema
          campo := field_name
          descricao := field_desc ++ pyS " nao encontrado(a)"
          severidade := severity } :: gaps
      else gaps, params'')

/-- The outer loop of `detect_gaps`, threading the parameter index (the
`params = self._parametros_index[tema_str]` `defaultdict` access is
guarded by `tema_str not in ...`; `params` aliases the index entry, so the
field loop's final dict is written back). -/
def gapsLoop :
    List (List Char × List (List Char × List Char × ValidationSeverity)) →
    List (List Char × List (List Char × List (PVal × List Char × TipoEvento))) →
      List Gap ×
        List (List Char × List (List Char × List (PVal × List Char × TipoEvento)))
  | [], idx => ([], idx)
  | (tema_str, fields) :: rest, idx =>
    match lookupD idx tema_str with
    | Option.none => gapsLoop rest idx
    | some _ =>
      match ddGet idx tema_str [] with
      | (params, idx₁) =>
        match gapsFieldLoop tema_str fields params with
        | (gaps, params') =>
          match gapsLoop rest (dictSet idx₁ tema_str params') with
          | (gaps', idx₂) => (gaps ++ gaps', idx₂)

/-- `ProcessMemory.detect_gaps`. -/
def detectGaps (m : ProcessMemory) : List Gap × ProcessMemory :=
  match gapsLoop expectedFields m.parametros_index with
  | (gaps, idx) => (gaps, { m with parametros_index := idx })

/-- `ProcessMemory.get_parametros_by_tema`: per-field priority-resolved
value (`sorted(values, key=priority)[0][0]`). -/
def getParametrosByTema (m : ProcessMemory) (tema : List Char) :
    List (List Char × PVal) × ProcessMemory :=
  match lookupD m.parametros_index tema with
  | Option.none => ([], m)
  | some _ =>
    match ddGet m.parametros_index tema [] with
    | (params, idx') =>
      (params.foldl (fun resultado kv =>
        if kv.2 = [] then resultado
        else dictSet resultado kv.1
          (((LegalChunker.sortByKey (fun x => getPriority x.2.2) kv.2).headD
            emptyTriple).1))
        [],
       { m with parametros_index := idx' })

/-- `ProcessMemory.get_fontes_by_tema`. -/
def getFontesByTema (m : ProcessMemory) (tema : List Char) :
    List (List Char) × ProcessMemory :=
  ((getByTema m tema).1.foldl (fun fontes e =>
    if e.localizacao ≠ [] ∧ e.localizacao ∉ fontes then fontes ++ [e.localizacao]
    else fontes) [],
   m)

/-- `ProcessMemory.get_fatos_by_tema`. -/
def getFatosByTema (m : ProcessMemory) (tema : List Char) :
    List (List Char) × ProcessMemory :=
  ((getByTema m tema).1.flatMap (fun e => e.fatos_literais), m)

/-- The dictionary returned by `ProcessMemory.get_summary`. -/
structure MemorySummary where
  total_extractions : Nat
  temas_encontrados : List (List Char)
  eventos_encontrados : List TipoEvento
  extracoes_por_tema : List (List Char × Nat)
  extracoes_por_evento : List (List Char × Nat)
deriving DecidableEq

/-- `ProcessMemory.get_summary`. -/
def getSummary (m : ProcessMemory) : MemorySummary × ProcessMemory :=
  ({ total_extractions := m.extractions.length
     temas_encontrados := (getAllTemas m).1
     eventos_encontrados := (getAllEventos m).1
     extracoes_por_tema := m.by_tema.map (fun kv => (kv.1, kv.2.length))
     extracoes_por_evento := m.by_evento.map (fun kv => (kv.1, kv.2.length)) },
   m)

/-! ### Lemmas about `ProcessMemory` -/

theorem ddGet_present {κ ν : Type} [DecidableEq κ] {d : List (κ × ν)} {k : κ}
    {v : ν} (h : lookupD d k = some v) (dflt : ν) : ddGet d k dflt = (v, d) := by
  unfold ddGet
  rw [h]

theorem dictSet_self {κ ν : Type} [DecidableEq κ] :
    ∀ {d : List (κ × ν)} {k : κ} {v : ν}, lookupD d k = some v →
      dictSet d k v = d := by
  intro d
  induction d with
  | nil => intro k v h; simp [lookupD] at h
  | cons kv rest ih =>
    intro k v h
    match kv with
    | (k', v') =>
      rw [lookupD] at h
      rw [dictSet]
      by_cases hk : k' = k
      · rw [if_pos hk] at h
        rw [if_pos hk, hk, Option.some.inj h]
      · rw [if_neg hk] at h
        rw [if_neg hk, ih h]

theorem gapsFieldLoop_params (tema : List Char) :
    ∀ (fields : List (List Char × List Char × ValidationSeverity))
      (params : List (List Char × List (PVal × List Char × TipoEvento))),
      (gapsFieldLoop tema fields params).2 = params := by
  intro fields
  induction fields with
  | nil => intro params; rfl
  | cons f rest ih =>
    intro params
    match f with
    | (field_name, field_desc, severity) =>
      rw [gapsFieldLoop]
      match hlk : lookupD params field_name with
      | Option.none =>
        simp only [hlk, ih]
      | some vs =>
        simp only [hlk, ddGet_present hlk, ih]

theorem gapsLoop_idx :
    ∀ (entries : List (List Char ×
        List (List Char × List Char × ValidationSeverity)))
      (idx : List (List Char ×
        List (List Char × List (PVal × List Char × TipoEvento)))),
      (gapsLoop entries idx).2 = idx := by
  intro entries
  induction entries with
  | nil => intro idx; rfl
  | cons entry rest ih =>
    intro idx
    match entry with
    | (tema_str, fields) =>
      rw [gapsLoop]
      match hlk : lookupD idx tema_str with
      | Option.none => simp only [ih]
      | some params =>
        simp only [ddGet_present hlk, gapsFieldLoop_params, dictSet_self hlk, ih]

/-- C10: All `ProcessMemory` query operations (`get_by_tema`,
`get_by_evento`, `get_all_temas`, `get_all_eventos`, `detect_conflicts`,
`detect_gaps`, `get_parametros_by_tema`, `get_fontes_by_tema`,
`get_fatos_by_tema`, `get_summary`) leave the memory unchanged: the state
component threaded through each query (which records every mutation
Python's `defaultdict` indexing could perform) equals the input memory. -/
theorem C10_queries_are_pure_reads (m : ProcessMemory) (tema : List Char)
    (evento : TipoEvento) :
    (getByTema m tema).2 = m ∧ (getByEvento m evento).2 = m ∧
    (getAllTemas m).2 = m ∧ (getAllEventos m).2 = m ∧
    (detectConflicts m).2 = m ∧ (detectGaps m).2 = m ∧
    (getParametrosByTema m tema).2 = m ∧ (getFontesByTema m tema).2 = m ∧
    (getFatosByTema m tema).2 = m ∧ (getSummary m).2 = m := by
  refine ⟨rfl, rfl, rfl, rfl, rfl, ?_, ?_, rfl, rfl, rfl⟩
  · show ({ m with parametros_index :=
      (gapsLoop expectedFields m.parametros_index).2 } : ProcessMemory) = m
    rw [gapsLoop_idx]
  · unfold getParametrosByTema
    match hlk : lookupD m.parametros_index tema with
    | Option.none => rfl
    | some params =>
      simp only [ddGet_present hlk]

/-- Append-only extension between two lists. -/
def extendsTo {α : Type} (xs ys : List α) : Prop := ∃ t, ys = xs ++ t

theorem extendsTo_refl {α : Type} (xs : List α) : extendsTo xs xs := ⟨[], by simp⟩

theorem extendsTo_trans {α : Type} {xs ys zs : List α}
    (h₁ : extendsTo xs ys) (h₂ : extendsTo ys zs) : extendsTo xs zs := by
  obtain ⟨t₁, rfl⟩ := h₁
  obtain ⟨t₂, rfl⟩ := h₂
  exact ⟨t₁ ++ t₂, by simp⟩

theorem dictAppend_extends {κ ν : Type} [DecidableEq κ] :
    ∀ (d : List (κ × List ν)) (k : κ) (v : ν) (k' : κ),
      extendsTo ((lookupD d k').getD [])
        ((lookupD (dictAppend d k v) k').getD []) := by
  intro d
  induction d with
  | nil =>
    intro k v k'
    rw [dictAppend, lookupD, lookupD]
    by_cases hk : k = k'
    · rw [if_pos hk]
      exact ⟨[v], by simp [lookupD]⟩
    · rw [if_neg hk]
      exact extendsTo_refl _
  | cons kv rest ih =>
    intro k v k'
    match kv with
    | (k₀, vs₀) =>
      rw [dictAppend]
      by_cases h₀ : k₀ = k
      · rw [if_pos h₀, lookupD, lookupD]
        by_cases h₀' : k₀ = k'
        · rw [if_pos h₀', if_pos h₀']
          exact ⟨[v], by simp⟩
        · rw [if_neg h₀', if_neg h₀']
          exact extendsTo_refl _
      · rw [if_neg h₀, lookupD, lookupD]
        by_cases h₀' : k₀ = k'
        · rw [if_pos h₀', if_pos h₀']
          exact extendsTo_refl _
        · rw [if_neg h₀', if_neg h₀']
          exact ih k v k'

theorem dictAppend2_extends {κ ν : Type} [DecidableEq κ] :
    ∀ (d : List (κ × List (κ × List ν))) (k1 k2 : κ) (v : ν) (t' k' : κ),
      extendsTo ((lookupD ((lookupD d t').getD []) k').getD [])
        ((lookupD ((lookupD (dictAppend2 d k1 k2 v) t').getD []) k').getD []) := by
  intro d
  induction d with
  | nil =>
    intro k1 k2 v t' k'
    rw [dictAppend2]
    simp only [lookupD, Option.getD_none]
    exact ⟨_, rfl⟩
  | cons kv rest ih =>
    intro k1 k2 v t' k'
    match kv with
    | (t₀, inner₀) =>
      rw [dictAppend2]
      by_cases h₀ : t₀ = k1
      · rw [if_pos h₀, lookupD, lookupD]
        by_cases h₀' : t₀ = t'
        · rw [if_pos h₀', if_pos h₀']
          simp only [Option.getD_some]
          exact dictAppend_extends inner₀ k2 v k'
        · rw [if_neg h₀', if_neg h₀']
          exact extendsTo_refl _
      · rw [if_neg h₀, lookupD, lookupD]
        by_cases h₀' : t₀ = t'
        · rw [if_pos h₀', if_pos h₀']
          exact extendsTo_refl _
        · rw [if_neg h₀', if_neg h₀']
          exact ih k1 k2 v t' k'

theorem foldl_dictAppend_extends {κ ν : Type} [DecidableEq κ] (e : ν) :
    ∀ (ks : List κ) (d : List (κ × List ν)) (k' : κ),
      extendsTo ((lookupD d k').getD [])
        ((lookupD (ks.foldl (fun d' k => dictAppend d' k e) d) k').getD []) := by
  intro ks
  induction ks with
  | nil => intro d k'; exact extendsTo_refl _
  | cons k ks ih =>
    intro d k'
    exact extendsTo_trans (dictAppend_extends d k e k') (ih _ k')

theorem foldl_dictAppend2_extends {κ α ν : Type} [DecidableEq κ] :
    ∀ (kvs : List (κ × α)) (d : List (κ × List (κ × List ν))) (tema : κ)
      (f : κ × α → ν) (t' k' : κ),
      extendsTo ((lookupD ((lookupD d t').getD []) k').getD [])
        ((lookupD ((lookupD (kvs.foldl (fun d' kv =>
            dictAppend2 d' tema kv.1 (f kv)) d) t').getD []) k').getD []) := by
  intro kvs
  induction kvs with
  | nil => intro d tema f t' k'; exact extendsTo_refl _
  | cons kv kvs ih =>
    intro d tema f t' k'
    exact extendsTo_trans (dictAppend2_extends d tema kv.1 (f kv) t' k')
      (ih _ tema f t' k')

theorem foldl2_dictAppend2_extends {κ α ν : Type} [DecidableEq κ]
    (kvs : List (κ × α)) (f : κ × α → ν) :
    ∀ (temas : List κ)
      (d : List (κ × List (κ × List ν))) (t' k' : κ),
      extendsTo ((lookupD ((lookupD d t').getD []) k').getD [])
        ((lookupD ((lookupD (temas.foldl (fun d₀ tema =>
            kvs.foldl (fun d' kv => dictAppend2 d' tema kv.1 (f kv)) d₀) d)
          t').getD []) k').getD []) := by
  intro temas
  induction temas with
  | nil => intro d t' k'; exact extendsTo_refl _
  | cons tema temas ih =>
    intro d t' k'
    exact extendsTo_trans (foldl_dictAppend2_extends kvs d tema f t' k') (ih _ t' k')

/-- C9 (amended): `ProcessMemory` accumulation is append-only — an
`add_extraction` call appends the extraction to `extractions` and only
extends the indexed lists — but it is *not* idempotent: adding the same
extraction twice appends it twice (see the counterexample). -/
theorem C9_add_extraction_append_only (m : ProcessMemory) (e : ChunkExtraction) :
    (addExtraction m e).extractions = m.extractions ++ [e] ∧
    (∀ k, extendsTo ((lookupD m.by_tema k).getD [])
      ((lookupD (addExtraction m e).by_tema k).getD [])) ∧
    (∀ k, extendsTo ((lookupD m.by_evento k).getD [])
      ((lookupD (addExtraction m e).by_evento k).getD [])) ∧
    (∀ t k, extendsTo
      ((lookupD ((lookupD m.parametros_index t).getD []) k).getD [])
      ((lookupD ((lookupD (addExtraction m e).parametros_index t).getD []) k).getD
        [])) ∧
    (addExtraction (addExtraction m e) e).extractions = m.extractions ++ [e, e] := by
  refine ⟨rfl, ?_, ?_, ?_, ?_⟩
  · intro k
    exact foldl_dictAppend_extends e e.temas m.by_tema k
  · intro k
    exact dictAppend_extends m.by_evento e.tipo_evento.value e k
  · intro t k
    exact foldl2_dictAppend2_extends e.parametros
      (fun kv => (kv.2, e.localizacao, e.tipo_evento)) e.temas
      m.parametros_index t k
  · show (m.extractions ++ [e]) ++ [e] = m.extractions ++ [e, e]
    simp

theorem LegalChunker.insertKey_length {α : Type} (key : α → Nat) (x : α) :
    ∀ l : List α, (LegalChunker.insertKey key x l).length = l.length + 1 := by
  intro l
  induction l with
  | nil => rfl
  | cons y ys ih =>
    rw [LegalChunker.insertKey]
    by_cases h : key x ≤ key y
    · rw [if_pos h]
      rfl
    · rw [if_neg h]
      simp [ih]

theorem LegalChunker.sortByKey_length {α : Type} (key : α → Nat) :
    ∀ l : List α, (LegalChunker.sortByKey key l).length = l.length := by
  intro l
  induction l with
  | nil => rfl
  | cons y ys ih =>
    rw [LegalChunker.sortByKey, LegalChunker.insertKey_length, ih]
    rfl

theorem conflictsForKey_mem {tema campo : List Char}
    {vs : List (PVal × List Char × TipoEvento)} {c : Conflict}
    (h : c ∈ conflictsForKey tema campo vs) :
    c.tema = tema ∧ c.campo = campo := by
  unfold conflictsForKey at h
  split at h
  · simp at h
  · split at h
    · split at h
      · simp at h
      · rcases List.mem_map.mp h with ⟨g, -, rfl⟩
        exact ⟨rfl, rfl⟩
    · simp at h

theorem filter_conflictsForKey_self (tema campo : List Char)
    (vs : List (PVal × List Char × TipoEvento)) :
    (conflictsForKey tema campo vs).filter
      (fun c => decide (c.tema = tema ∧ c.campo = campo)) =
      conflictsForKey tema campo vs :=
  List.filter_eq_self.mpr (fun c hc => by
    obtain ⟨h1, h2⟩ := conflictsForKey_mem hc
    simp [h1, h2])

theorem filter_conflictsForKey_ne {tema campo tema' campo' : List Char}
    (hne : tema' ≠ tema ∨ campo' ≠ campo)
    (vs : List (PVal × List Char × TipoEvento)) :
    (conflictsForKey tema' campo' vs).filter
      (fun c => decide (c.tema = tema ∧ c.campo = campo)) = [] := by
  rw [List.filter_eq_nil_iff]
  intro c hc
  obtain ⟨h1, h2⟩ := conflictsForKey_mem hc
  rcases hne with hne | hne <;> simp [h1, h2, hne]

theorem filter_flatMap_fields {tema campo : List Char} :
    ∀ (fields : List (List Char × List (PVal × List Char × TipoEvento))),
      (fields.map Prod.fst).Nodup →
      ∀ {vs : List (PVal × List Char × TipoEvento)},
        lookupD fields campo = some vs →
      (fields.flatMap (fun kv => conflictsForKey tema kv.1 kv.2)).filter
          (fun c => decide (c.tema = tema ∧ c.campo = campo)) =
        conflictsForKey tema campo vs := by
  intro fields
  induction fields with
  | nil => intro _ vs h; simp [lookupD] at h
  | cons kv rest ih =>
    intro hnodup vs hlk
    match kv with
    | (k₀, v₀) =>
      rw [List.flatMap_cons, List.filter_append]
      rw [lookupD] at hlk
      by_cases hk : k₀ = campo
      · rw [if_pos hk] at hlk
        have hv : v₀ = vs := Option.some.inj hlk
        subst hv
        rw [hk, filter_conflictsForKey_self]
        have hnotin : campo ∉ rest.map Prod.fst := by
          have h1 : (List.map Prod.fst ((k₀, v₀) :: rest)).Nodup := hnodup
          rw [List.map_cons, List.nodup_cons] at h1
          rw [← hk]
          exact h1.1
        have hrest : (rest.flatMap (fun kv => conflictsForKey tema kv.1 kv.2)).filter
            (fun c => decide (c.tema = tema ∧ c.campo = campo)) = [] := by
          rw [List.filter_eq_nil_iff]
          intro c hc
          rcases List.mem_flatMap.mp hc with ⟨kv', hkv', hcc⟩
          obtain ⟨h1, h2⟩ := conflictsForKey_mem hcc
          have hne : kv'.1 ≠ campo := fun he =>
            hnotin (he ▸ List.mem_map_of_mem Prod.fst hkv')
          simp [h1, h2, hne]
        rw [hrest]
        simp
      · rw [if_neg hk] at hlk
        rw [filter_conflictsForKey_ne (Or.inr hk)]
        have h1 : (List.map Prod.fst ((k₀, v₀) :: rest)).Nodup := hnodup
        rw [List.map_cons, List.nodup_cons] at h1
        rw [ih h1.2 hlk]
        simp

theorem filter_flatMap_index {tema campo : List Char} :
    ∀ (idx : List (List Char ×
        List (List Char × List (PVal × List Char × TipoEvento)))),
      (idx.map Prod.fst).Nodup →
      ∀ {fields : List (List Char × List (PVal × List Char × TipoEvento))},
        lookupD idx tema = some fields →
      (idx.flatMap (fun tp =>
        tp.2.flatMap (fun kv => conflictsForKey tp.1 kv.1 kv.2))).filter
          (fun c => decide (c.tema = tema ∧ c.campo = campo)) =
        (fields.flatMap (fun kv => conflictsForKey tema kv.1 kv.2)).filter
          (fun c => decide (c.tema = tema ∧ c.campo = campo)) := by
  intro idx
  induction idx with
  | nil => intro _ fields h; simp [lookupD] at h
  | cons tp rest ih =>
    intro hnodup fields hlk
    match tp with
    | (t₀, flds₀) =>
      rw [List.flatMap_cons, List.filter_append]
      rw [lookupD] at hlk
      have h1 : (List.map Prod.fst ((t₀, flds₀) :: rest)).Nodup := hnodup
      rw [List.map_cons, List.nodup_cons] at h1
      by_cases ht : t₀ = tema
      · rw [if_pos ht] at hlk
        have hv : flds₀ = fields := Option.some.inj hlk
        subst hv
        rw [ht]
        have hrest : (rest.flatMap (fun tp =>
            tp.2.flatMap (fun kv => conflictsForKey tp.1 kv.1 kv.2))).filter
            (fun c => decide (c.tema = tema ∧ c.campo = campo)) = [] := by
          rw [List.filter_eq_nil_iff]
          intro c hc
          rcases List.mem_flatMap.mp hc with ⟨tp', htp', hcc⟩
          rcases List.mem_flatMap.mp hcc with ⟨kv', -, hcc'⟩
          obtain ⟨h2, h3⟩ := conflictsForKey_mem hcc'
          have hne : tp'.1 ≠ tema := by
            intro he
            apply h1.1
            rw [ht, ← he]
            exact List.mem_map.mpr ⟨tp', htp', rfl⟩
          simp [h2, h3, hne]
        rw [hrest]
        simp
      · rw [if_neg ht] at hlk
        have hflds : (flds₀.flatMap (fun kv => conflictsForKey t₀ kv.1 kv.2)).filter
            (fun c => decide (c.tema = tema ∧ c.campo = campo)) = [] := by
          rw [List.filter_eq_nil_iff]
          intro c hc
          rcases List.mem_flatMap.mp hc with ⟨kv', -, hcc⟩
          obtain ⟨h2, h3⟩ := conflictsForKey_mem hcc
          simp [h2, h3, ht]
        rw [hflds, ih h1.2 hlk]
        simp

/-- C1: For a theme and field whose recorded values normalize to more than
one group, `detect_conflicts` stably sorts the groups by the source
priority of each group's first member's event type
(sentenca=1 ... outros=99, lower wins) and emits exactly one `Conflict` per
non-primary group: the conflicts carrying this theme and field are exactly
one per element of the sorted tail, each pairing the primary group's first
recorded value and location as `valor_1`/`fonte_1`/`fonte_escolhida`
against that group's first recorded value as `valor_2`/`fonte_2`, with the
priority-rule resolution note. -/
theorem C1_detect_conflicts_priority_groups
    (m : ProcessMemory) (tema campo : List Char)
    (fields : List (List Char × List (PVal × List Char × TipoEvento)))
    (vs : List (PVal × List Char × TipoEvento))
    (hnodupT : (m.parametros_index.map Prod.fst).Nodup)
    (ht : lookupD m.parametros_index tema = some fields)
    (hnodupF : (fields.map Prod.fst).Nodup)
    (hk : lookupD fields campo = some vs)
    (hvals : 2 ≤ vs.length)
    (hgroups : 2 ≤ (groupByNormalized vs).length) :
    ∃ primaryG restG,
      LegalChunker.sortByKey (fun g => getPriority (g.2.headD emptyTriple).2.2)
        (groupByNormalized vs) = primaryG :: restG ∧
      (detectConflicts m).1.filter
          (fun c => decide (c.tema = tema ∧ c.campo = campo)) =
        restG.map (fun g =>
          { tema := tema
            campo := campo
            valor_1 := (primaryG.2.headD emptyTriple).1
            fonte_1 := (primaryG.2.headD emptyTriple).2.1
            valor_2 := (g.2.headD emptyTriple).1
            fonte_2 := (g.2.headD emptyTriple).2.1
            resolucao := some (pyS "Preferencia: " ++
              (primaryG.2.headD emptyTriple).2.2.value ++ pyS " > " ++
              (g.2.headD emptyTriple).2.2.value)
            fonte_escolhida := some (primaryG.2.headD emptyTriple).2.1 }) := by
  have hlen : 0 < (LegalChunker.sortByKey
      (fun g => getPriority (g.2.headD emptyTriple).2.2)
      (groupByNormalized vs)).length := by
    rw [LegalChunker.sortByKey_length]
    omega
  match hsorted : LegalChunker.sortByKey
      (fun g => getPriority (g.2.headD emptyTriple).2.2)
      (groupByNormalized vs) with
  | [] => rw [hsorted] at hlen; simp at hlen
  | primaryG :: restG =>
    refine ⟨primaryG, restG, hsorted, ?_⟩
    show (m.parametros_index.flatMap (fun tp =>
        tp.2.flatMap (fun kv => conflictsForKey tp.1 kv.1 kv.2))).filter
        (fun c => decide (c.tema = tema ∧ c.campo = campo)) = _
    rw [filter_flatMap_index m.parametros_index hnodupT ht,
      filter_flatMap_fields fields hnodupF hk]
    unfold conflictsForKey
    rw [if_neg (by omega), if_pos (by omega), hsorted]

/-- A payslip-sourced overtime extraction (C1 witness fixture). -/
def c1Holerite : ChunkExtraction :=
  { chunk_id := pyS "chunk_1"
    tipo_evento := .holerite
    temas := [pyS "horas_extras"]
    fatos_literais := [pyS "horas extras pagas a 40%"]
    parametros := [(pyS "percentual", PVal.s (pyS "40%"))]
    localizacao := pyS "fls. 55"
    texto_original := [] }

/-- A judgment-sourced overtime extraction (C1 witness fixture). -/
def c1Sentenca : ChunkExtraction :=
  { chunk_id := pyS "chunk_0"
    tipo_evento := .sentenca
    temas := [pyS "horas_extras"]
    fatos_literais := [pyS "defiro horas extras com adicional de 50%"]
    parametros := [(pyS "percentual", PVal.s (pyS "50%"))]
    localizacao := pyS "fls. 10"
    texto_original := [] }

/-- Memory holding the payslip extraction first, then the judgment, so the
priority sort (not insertion order) determines the primary group. -/
def c1Memory : ProcessMemory :=
  addExtraction (addExtraction {} c1Holerite) c1Sentenca

/-- The recorded values of `(horas_extras, percentual)` in `c1Memory`. -/
def c1Values : List (PVal × List Char × TipoEvento) :=
  [(PVal.s (pyS "40%"), pyS "fls. 55", .holerite),
   (PVal.s (pyS "50%"), pyS "fls. 10", .sentenca)]

/-- The field dict of the `horas_extras` theme in `c1Memory`. -/
def c1Fields : List (List Char × List (PVal × List Char × TipoEvento)) :=
  [(pyS "percentual", c1Values)]

/-- Witness for C1: a judgment-sourced and a payslip-sourced value for the
same theme and field; the judgment's value is reported as `valor_1` and its
location as `fonte_escolhida`, even though the payslip was recorded
first. -/
theorem C1_witness :
    (c1Memory.parametros_index.map Prod.fst).Nodup ∧
    lookupD c1Memory.parametros_index (pyS "horas_extras") = some c1Fields ∧
    (c1Fields.map Prod.fst).Nodup ∧
    lookupD c1Fields (pyS "percentual") = some c1Values ∧
    2 ≤ c1Values.length ∧
    2 ≤ (groupByNormalized c1Values).length ∧
    (∃ primaryG restG,
      LegalChunker.sortByKey (fun g => getPriority (g.2.headD emptyTriple).2.2)
        (groupByNormalized c1Values) = primaryG :: restG ∧
      (detectConflicts c1Memory).1.filter
          (fun c => decide (c.tema = pyS "horas_extras" ∧
            c.campo = pyS "percentual")) =
        restG.map (fun g =>
          { tema := pyS "horas_extras"
            campo := pyS "percentual"
            valor_1 := (primaryG.2.headD emptyTriple).1
            fonte_1 := (primaryG.2.headD emptyTriple).2.1
            valor_2 := (g.2.headD emptyTriple).1
            fonte_2 := (g.2.headD emptyTriple).2.1
            resolucao := some (pyS "Preferencia: " ++
              (primaryG.2.headD emptyTriple).2.2.value ++ pyS " > " ++
              (g.2.headD emptyTriple).2.2.value)
            fonte_escolhida := some (primaryG.2.headD emptyTriple).2.1 })) ∧
    (detectConflicts c1Memory).1.map
        (fun c => (c.valor_1, c.fonte_1, c.fonte_escolhida)) =
      [(PVal.s (pyS "50%"), pyS "fls. 10", some (pyS "fls. 10"))] :=
  ⟨by decide, by decide, by decide, by decide, by decide, by decide,
    C1_detect_conflicts_priority_groups c1Memory (pyS "horas_extras")
      (pyS "percentual") c1Fields c1Values (by decide) (by decide) (by decide)
      (by decide) (by decide) (by decide),
    by decide⟩

/-- The extraction used by the C9 counterexample. -/
def c9Extraction : ChunkExtraction :=
  { chunk_id := pyS "chunk_0"
    tipo_evento := .sentenca
    temas := [pyS "salario"]
    fatos_literais := [pyS "salario de R$ 1.000,00"]
    parametros := [(pyS "valor", PVal.s (pyS "R$ 1.000,00"))]
    localizacao := pyS "fls. 3"
    texto_original := [] }

/-- C9 as stated is false: adding the same extraction twice does not leave
the memory in the state of adding it once — the extractions list (and hence
`get_summary().total_extractions`) grows on every call. -/
theorem C9_counterexample :
    (addExtraction (addExtraction {} c9Extraction) c9Extraction).extractions.length = 2 ∧
    (addExtraction {} c9Extraction).extractions.length = 1 ∧
    (getSummary (addExtraction (addExtraction {} c9Extraction)
      c9Extraction)).1.total_extractions ≠
      (getSummary (addExtraction {} c9Extraction)).1.total_extractions := by
  refine ⟨rfl, rfl, by decide⟩

/-! ### `src/core/semantic_consolidator.py` -/

/-- `StatusConsolidacao`. -/
inductive StatusConsolidacao where
  | confirmed
  | divergent
  | pending
deriving DecidableEq, Repr

/-- `ConsolidatedTheme`. -/
structure ConsolidatedTheme where
  tema : List Char
  status : StatusConsolidacao
  parametros_consolidados : List (List Char × PVal)
  fontes : List (List Char)
  conflitos : List Conflict := []
  observacoes : List Char := []
deriving DecidableEq

/-- The observable outcome of one `_call_consolidation_api` invocation:
it returns an `Optional[ConsolidatedTheme]` (`None` when the response is
empty or unparseable), raises a transient error
(`RateLimitError`/`APIConnectionError`), or raises any other exception.
The language-model call is embedded as an oracle from the attempt number
to this outcome. -/
inductive CallOutcome where
  | ok (result : Option ConsolidatedTheme)
  | transientError
  | otherException
deriving DecidableEq

/-- `SemanticConsolidator._create_single_source_consolidation`. -/
def singleSourceConsolidation (tema : List Char) (extraction : ChunkExtraction) :
    ConsolidatedTheme :=
  { tema := tema
    status := .confirmed
    parametros_consolidados := extraction.parametros
    fontes := [extraction.localizacao]
    conflitos := []
    observacoes := pyS "Fonte unica - sem conflitos possiveis" }

set_option linter.unusedVariables false in
/-- `SemanticConsolidator._create_fallback_consolidation` (the
`extractions` parameter is part of the source signature but unused by its
body). -/
def fallbackConsolidation (tema : List Char) (extractions : List ChunkExtraction)
    (m : ProcessMemory) : ConsolidatedTheme :=
  { tema := tema
    status :=
      if (detectConflicts m).1.filter (fun c => decide (c.tema = tema)) ≠ [] then
        .divergent
      else if (getParametrosByTema m tema).1 ≠ [] then .confirmed
      else .pending
    parametros_consolidados := (getParametrosByTema m tema).1
    fontes := (getFontesByTema m tema).1
    conflitos := (detectConflicts m).1.filter (fun c => decide (c.tema = tema))
    observacoes := pyS "Consolidacao automatica (fallback)" }

/-- The `for attempt in range(self.max_retries)` loop of
`_consolidate_theme`, counting down the remaining iterations
(`attempt = max_retries - remaining`): a successful call returns its
(possibly `None`) parse result directly; a transient error on the last
attempt, or any other exception, returns the fallback; loop exhaustion
returns `None`. -/
def consolidateLoop (oracle : Nat → CallOutcome) (tema : List Char)
    (extractions : List ChunkExtraction) (m : ProcessMemory)
    (max_retries : Nat) : Nat → Option ConsolidatedTheme
  | 0 => Option.none
  | remaining + 1 =>
    match oracle (max_retries - (remaining + 1)) with
    | .ok v => v
    | .transientError =>
      if max_retries - (remaining + 1) = max_retries - 1 then
        some (fallbackConsolidation tema extractions m)
      else consolidateLoop oracle tema extractions m max_retries remaining
    | .otherException => some (fallbackConsolidation tema extractions m)

/-- `SemanticConsolidator._consolidate_theme`. -/
def consolidateTheme (max_retries : Nat) (oracle : Nat → CallOutcome)
    (tema : List Char) (extractions : List ChunkExtraction)
    (m : ProcessMemory) : Option ConsolidatedTheme :=
  match extractions with
  | [e] => some (singleSourceConsolidation tema e)
  | _ => consolidateLoop oracle tema extractions m max_retries max_retries

/-- C4: a theme with exactly one contributing extraction consolidates
immediately to `confirmed`, with no conflicts, the extraction's parameters
verbatim and its location as the only source — for every oracle, so no
language-model call is observed. -/
theorem C4_single_source_confirmed (max_retries : Nat)
    (oracle : Nat → CallOutcome) (tema : List Char) (e : ChunkExtraction)
    (m : ProcessMemory) :
    consolidateTheme max_retries oracle tema [e] m =
      some { tema := tema
             status := .confirmed
             parametros_consolidados := e.parametros
             fontes := [e.localizacao]
             conflitos := []
             observacoes := pyS "Fonte unica - sem conflitos possiveis" } := rfl

theorem consolidateLoop_transient (oracle : Nat → CallOutcome)
    (tema : List Char) (extractions : List ChunkExtraction) (m : ProcessMemory)
    (max_retries : Nat)
    (horacle : ∀ i, i < max_retries → oracle i = .transientError) :
    ∀ remaining, 1 ≤ remaining → remaining ≤ max_retries →
      consolidateLoop oracle tema extractions m max_retries remaining =
        some (fallbackConsolidation tema extractions m) := by
  intro remaining
  induction remaining with
  | zero => intro h1 _; omega
  | succ r ih =>
    intro _ hle
    rw [consolidateLoop,
      horacle (max_retries - (r + 1)) (by omega)]
    by_cases hlast : max_retries - (r + 1) = max_retries - 1
    · rw [if_pos hlast]
    · rw [if_neg hlast]
      exact ih (by omega) (by omega)

theorem consolidateLoop_exception (oracle : Nat → CallOutcome)
    (tema : List Char) (extractions : List ChunkExtraction) (m : ProcessMemory)
    (max_retries : Nat) (j : Nat) (hj : j < max_retries)
    (hex : oracle j = .otherException) :
    ∀ remaining, remaining ≤ max_retries → max_retries - remaining ≤ j →
      (∀ i, max_retries - remaining ≤ i → i < j → oracle i = .transientError) →
      consolidateLoop oracle tema extractions m max_retries remaining =
        some (fallbackConsolidation tema extractions m) := by
  intro remaining
  induction remaining with
  | zero => intro _ h2 _; omega
  | succ r ih =>
    intro hle hstart htrans
    rw [consolidateLoop]
    by_cases hcur : max_retries - (r + 1) = j
    · rw [hcur, hex]
    · have hlt : max_retries - (r + 1) < j := by omega
      rw [htrans _ (by omega) hlt]
      by_cases hlast : max_retries - (r + 1) = max_retries - 1
      · rw [if_pos hlast]
      · rw [if_neg hlast]
        exact ih (by omega) (by omega)
          (fun i h1 h2 => htrans i (by omega) h2)

/-- C5 (amended): for a theme with multiple extractions, when the model
call *raises* — transient errors through the retry ceiling, or any other
exception (after any number of leading transient errors) — the consolidator
returns the deterministic fallback, computed purely from `ProcessMemory`:
parameters from `get_parametros_by_tema`, sources from
`get_fontes_by_tema`, conflicts from `detect_conflicts` restricted to the
theme, and status divergent/confirmed/pending by conflicts/parameters.
A call that *returns* an empty or unparseable response, however, yields
`None` — no `ConsolidatedTheme` at all — not the fallback (see the
counterexample). -/
theorem C5_fallback_on_model_failure (max_retries : Nat)
    (oracle : Nat → CallOutcome) (tema : List Char)
    (extractions : List ChunkExtraction) (m : ProcessMemory)
    (hmulti : extractions.length ≠ 1) :
    ((1 ≤ max_retries ∧ ∀ i, i < max_retries → oracle i = .transientError) →
      consolidateTheme max_retries oracle tema extractions m =
        some (fallbackConsolidation tema extractions m)) ∧
    (∀ j, j < max_retries → oracle j = .otherException →
      (∀ i, i < j → oracle i = .transientError) →
      consolidateTheme max_retries oracle tema extractions m =
        some (fallbackConsolidation tema extractions m)) ∧
    (fallbackConsolidation tema extractions m).parametros_consolidados =
      (getParametrosByTema m tema).1 ∧
    (fallbackConsolidation tema extractions m).fontes =
      (getFontesByTema m tema).1 ∧
    (fallbackConsolidation tema extractions m).conflitos =
      (detectConflicts m).1.filter (fun c => decide (c.tema = tema)) ∧
    (fallbackConsolidation tema extractions m).status =
      (if (detectConflicts m).1.filter (fun c => decide (c.tema = tema)) ≠ [] then
        StatusConsolidacao.divergent
      else if (getParametrosByTema m tema).1 ≠ [] then StatusConsolidacao.confirmed
      else StatusConsolidacao.pending) := by
  have hloop : consolidateTheme max_retries oracle tema extractions m =
      consolidateLoop oracle tema extractions m max_retries max_retries := by
    unfold consolidateTheme
    match extractions, hmulti with
    | [], _ => rfl
    | _ :: _ :: _, _ => rfl
    | [e], h => exact absurd rfl h
  refine ⟨?_, ?_, rfl, rfl, rfl, rfl⟩
  · intro ⟨h1, htrans⟩
    rw [hloop]
    exact consolidateLoop_transient oracle tema extractions m max_retries htrans
      max_retries h1 (Nat.le_refl _)
  · intro j hj hex htrans
    rw [hloop]
    exact consolidateLoop_exception oracle tema extractions m max_retries j hj hex
      max_retries (Nat.le_refl _) (by omega)
      (fun i h1 h2 => htrans i h2)

/-- Fixture memory for the C5 counterexample (two extractions of the same
theme with diverging values). -/
def c5Memory : ProcessMemory :=
  addExtraction (addExtraction {}
    { chunk_id := pyS "chunk_0"
      tipo_evento := .sentenca
      temas := [pyS "ferias"]
      fatos_literais := []
      parametros := [(pyS "periodo", PVal.s (pyS "30 dias"))]
      localizacao := pyS "fls. 2"
      texto_original := [] })
    { chunk_id := pyS "chunk_1"
      tipo_evento := .contrato
      temas := [pyS "ferias"]
      fatos_literais := []
      parametros := [(pyS "periodo", PVal.s (pyS "20 dias"))]
      localizacao := pyS "fls. 9"
      texto_original := [] }

/-- The extractions of `c5Memory`, as passed to `_consolidate_theme`. -/
def c5Extractions : List ChunkExtraction :=
  (getByTema c5Memory (pyS "ferias")).1

/-- C5 as stated is false on the unparseable-response path: when the model
call *returns* with content that fails to parse (`_call_consolidation_api`
returns `None` without raising), `_consolidate_theme` returns `None`
directly — the theme gets no `ConsolidatedTheme` — instead of the fallback
the claim requires. -/
theorem C5_counterexample :
    consolidateTheme 3 (fun _ => CallOutcome.ok Option.none) (pyS "ferias")
      c5Extractions c5Memory = Option.none ∧
    consolidateTheme 3 (fun _ => CallOutcome.ok Option.none) (pyS "ferias")
      c5Extractions c5Memory ≠
      some (fallbackConsolidation (pyS "ferias") c5Extractions c5Memory) := by
  have h : consolidateTheme 3 (fun _ => CallOutcome.ok Option.none) (pyS "ferias")
      c5Extractions c5Memory = Option.none := rfl
  exact ⟨h, by rw [h]; simp⟩

/-- Witness for C5 (amended): transient errors through the retry ceiling
produce the fallback, whose status is `divergent` here because the two
sources conflict. -/
theorem C5_witness :
    c5Extractions.length ≠ 1 ∧
    ((1 ≤ 3 ∧ ∀ i, i < 3 → (fun _ => CallOutcome.transientError) i =
        CallOutcome.transientError) →
      consolidateTheme 3 (fun _ => CallOutcome.transientError) (pyS "ferias")
        c5Extractions c5Memory =
        some (fallbackConsolidation (pyS "ferias") c5Extractions c5Memory)) ∧
    consolidateTheme 3 (fun _ => CallOutcome.transientError) (pyS "ferias")
      c5Extractions c5Memory =
      some (fallbackConsolidation (pyS "ferias") c5Extractions c5Memory) ∧
    (fallbackConsolidation (pyS "ferias") c5Extractions c5Memory).status =
      StatusConsolidacao.divergent :=
  ⟨by decide,
   (C5_fallback_on_model_failure 3 (fun _ => CallOutcome.transientError)
      (pyS "ferias") c5Extractions c5Memory (by decide)).1,
   (C5_fallback_on_model_failure 3 (fun _ => CallOutcome.transientError)
      (pyS "ferias") c5Extractions c5Memory (by decide)).1
     ⟨by decide, fun i _ => rfl⟩,
   by decide⟩

/-! ### `src/utils/pipeline_validator.py` -/

/-- A Python/JSON value as occurring in generated section content (the
pipeline's contents are built from `json` parsing: strings, numbers,
objects and arrays). -/
inductive JVal where
  | str (s : List Char)
  | num (n : Int)
  | obj (fields : List (List Char × JVal))
  | arr (xs : List JVal)

/-- Python truthiness of a `JVal` (`bool(x)`). -/
def pyTruthy : JVal → Bool
  | .str s => s ≠ []
  | .num n => n ≠ 0
  | .obj fs => !fs.isEmpty
  | .arr xs => !xs.isEmpty

/-- The single-quote character, used by Python `repr` of strings. -/
def sq : Char := Char.ofNat 39

mutual

/-- Python `str(content)`/`repr` of a value (strings are shown with single
quotes; the contents relevant here contain no quote characters to
escape). -/
def pyRepr : JVal → List Char
  | .str s => sq :: s ++ [sq]
  | .num n => intChars n
  | .obj fs => Char.ofNat 123 :: reprFields fs ++ [Char.ofNat 125]
  | .arr xs => '[' :: reprArr xs ++ [']']

def reprFields : List (List Char × JVal) → List Char
  | [] => []
  | [(k, v)] => sq :: k ++ [sq] ++ pyS ": " ++ pyRepr v
  | (k, v) :: kv :: rest =>
    sq :: k ++ [sq] ++ pyS ": " ++ pyRepr v ++ pyS ", " ++ reprFields (kv :: rest)

def reprArr : List JVal → List Char
  | [] => []
  | [v] => pyRepr v
  | v :: w :: rest => pyRepr v ++ pyS ", " ++ reprArr (w :: rest)

end

/-- Python `str(x)` (identity on strings, `repr` otherwise). -/
def pyStr : JVal → List Char
  | .str s => s
  | v => pyRepr v

/-- `f"{path}.{key}" if path else key`. -/
def newPath (path key : List Char) : List Char :=
  if path = [] then key else path ++ '.' :: key

/-- `obj["valor"] != "nao identificado"` (a non-string value always
differs from the placeholder string). -/
def isNaoIdentificado : JVal → Bool
  | .str s => s = pyS "nao identificado"
  | _ => false

/-- `"fonte" not in obj or not obj["fonte"]`. -/
def fonteMissing (fs : List (List Char × JVal)) : Bool :=
  match lookupD fs (pyS "fonte") with
  | Option.none => true
  | some f => !pyTruthy f

/-- The object-level test of `_validate_has_sources`: a truthy `valor`
different from the placeholder, with no truthy `fonte`. -/
def hasValorSemFonte (fs : List (List Char × JVal)) : Bool :=
  match lookupD fs (pyS "valor") with
  | some v => pyTruthy v && !isNaoIdentificado v && fonteMissing fs
  | Option.none => false

mutual

/-- `check_recursive` of `_validate_has_sources`: collects the paths of
objects carrying an unsourced value, at any depth. -/
def checkR : JVal → List Char → List (List Char)
  | .obj fs, path =>
    (if hasValorSemFonte fs then [if path = [] then pyS "campo" else path]
     else []) ++ checkFields fs path
  | .arr xs, path => checkArrR xs path 0
  | _, _ => []

def checkFields : List (List Char × JVal) → List Char → List (List Char)
  | [], _ => []
  | (k, v) :: rest, path => checkR v (newPath path k) ++ checkFields rest path

def checkArrR : List JVal → List Char → Nat → List (List Char)
  | [], _, _ => []
  | v :: rest, path, i =>
    checkR v (path ++ '[' :: natChars i ++ [']']) ++ checkArrR rest path (i + 1)

end

/-- `PipelineValidator._validate_has_sources`. -/
def validateHasSources (content : List (List Char × JVal)) (_section : List Char) :
    Option (List Char) :=
  if checkR (.obj content) [] ≠ [] then
    some (pyS "Campos sem fonte: " ++
      joinSep (pyS ", ") ((checkR (.obj content) []).take 3))
  else Option.none

/-- `PipelineValidator._validate_verbas_have_params` — every branch of the
source ends in `pass`, so the validator always returns `None`. -/
def validateVerbasHaveParams (_content : List (List Char × JVal))
    (_section : List Char) : Option (List Char) :=
  Option.none

/-- `r'\d+[,.]?\d*\s*%'`. -/
def percentualPattern : List Pat :=
  [.plus .digit, .opt [',', '.'], .star .digit, .star .space, .litCS '%']

/-- `r'R\$\s*[\d.,]+'` (case-sensitive: the pattern has no `(?i)`). -/
def valorPattern : List Pat :=
  [.litCS 'R', .litCS '$', .star .space, .plus .digitDotComma]

mutual

/-- `find_percentuais` of `_validate_percentuais_have_source`: string
values matching the percentage pattern whose enclosing object lacks a
truthy `fonte`. -/
def findPerc : JVal → List Char → List (List Char)
  | .obj fs, path => findPercFields fs fs path
  | .arr xs, path => findPercArr xs path 0
  | _, _ => []

def findPercFields :
    List (List Char × JVal) → List (List Char × JVal) → List Char →
      List (List Char)
  | _, [], _ => []
  | obj, (k, v) :: rest, path =>
    (match v with
     | .str s =>
       if (reSearch percentualPattern s).isSome then
         if fonteMissing obj then [newPath path k] else []
       else findPerc (.str s) (newPath path k)
     | v' => findPerc v' (newPath path k)) ++ findPercFields obj rest path

def findPercArr : List JVal → List Char → Nat → List (List Char)
  | [], _, _ => []
  | v :: rest, path, i =>
    findPerc v (path ++ '[' :: natChars i ++ [']']) ++ findPercArr rest path (i + 1)

end

/-- `PipelineValidator._validate_percentuais_have_source`. -/
def validatePercentuais (content : List (List Char × JVal))
    (_section : List Char) : Option (List Char) :=
  if findPerc (.obj content) [] ≠ [] then
    some (pyS "Percentuais sem fonte: " ++
      joinSep (pyS ", ") ((findPerc (.obj content) []).take 3))
  else Option.none

mutual

/-- `find_valores` of `_validate_valores_have_source`: monetary strings
without a source at the same level, and `{valor, fonte}` objects whose
stringified `valor` is monetary but whose own `fonte` is missing (that
branch does not recurse). -/
def findVal : JVal → List Char → List (List Char)
  | .obj fs, path => findValFields fs fs path
  | .arr xs, path => findValArr xs path 0
  | _, _ => []

def findValFields :
    List (List Char × JVal) → List (List Char × JVal) → List Char →
      List (List Char)
  | _, [], _ => []
  | obj, (k, v) :: rest, path =>
    (match v with
     | .str s =>
       if (reSearch valorPattern s).isSome then
         if fonteMissing obj then [newPath path k] else []
       else findVal (.str s) (newPath path k)
     | .obj inner =>
       if (lookupD inner (pyS "valor")).isSome then
         if (reSearch valorPattern
             (pyStr ((lookupD inner (pyS "valor")).getD (.str [])))).isSome then
           if fonteMissing inner then [newPath path k] else []
         else []
       else findVal (.obj inner) (newPath path k)
     | v' => findVal v' (newPath path k)) ++ findValFields obj rest path

def findValArr : List JVal → List Char → Nat → List (List Char)
  | [], _, _ => []
  | v :: rest, path, i =>
    findVal v (path ++ '[' :: natChars i ++ [']']) ++ findValArr rest path (i + 1)

end

/-- `PipelineValidator._validate_valores_have_source`. -/
def validateValores (content : List (List Char × JVal))
    (_section : List Char) : Option (List Char) :=
  if findVal (.obj content) [] ≠ [] then
    some (pyS "Valores sem fonte: " ++
      joinSep (pyS ", ") ((findVal (.obj content) []).take 3))
  else Option.none

/-- `PipelineValidator._validate_reflexos_have_base`. -/
def validateReflexos (content : List (List Char × JVal))
    (_section : List Char) : Option (List Char) :=
  let content_str := pyLower (pyRepr (.obj content))
  let has_base := [pyS "horas extras", pyS "adicional", pyS "ferias",
    pyS "decimo terceiro", pyS "fgts"].any (fun b => containsSub b content_str)
  if ([pyS "reflexos", pyS "repercussao", pyS "incidencia",
      pyS "integracao"].any (fun kw => containsSub kw content_str)) &&
      !has_base then
    some (pyS "Reflexo mencionado sem verba base clara")
  else Option.none

/-- `PipelineValidator._validate_no_vague_language`. -/
def validateNoVague (content : List (List Char × JVal))
    (_section : List Char) : Option (List Char) :=
  let content_str := pyLower (pyRepr (.obj content))
  let found_vague := [pyS "possivelmente", pyS "provavelmente", pyS "talvez",
    pyS "parece que", pyS "aparentemente", pyS "pode ser que",
    pyS "nao tenho certeza", pyS "acredito que"].filter
    (fun t => containsSub t content_str)
  if found_vague ≠ [] then
    some (pyS "Linguagem vaga detectada: " ++
      joinSep (pyS ", ") (found_vague.take 2))
  else Option.none

/-- Exactly `n` digits, returning the rest. -/
def digitsN : Nat → List Char → Option (List Char)
  | 0, l => some l
  | _ + 1, [] => Option.none
  | n + 1, c :: l => if isDigit c then digitsN n l else Option.none

/-- One candidate of `r'\d{1,2}/\d{1,2}/\d{2}(?!\d)'` with `a`/`b` digits
in the day/month positions. -/
def dateAmbAt (a b : Nat) (l : List Char) : Bool :=
  match digitsN a l with
  | some ('/' :: l₂) =>
    match digitsN b l₂ with
    | some ('/' :: l₄) =>
      match digitsN 2 l₄ with
      | some [] => true
      | some (c :: _) => !isDigit c
      | Option.none => false
    | _ => false
  | _ => false

/-- `re.search` of the ambiguous-date pattern (the `{1,2}` quantifiers
backtrack, so all four length combinations are tried at each position). -/
def dateAmbSearch : List Char → Bool
  | [] => false
  | c :: rest =>
    dateAmbAt 2 2 (c :: rest) || dateAmbAt 2 1 (c :: rest) ||
      dateAmbAt 1 2 (c :: rest) || dateAmbAt 1 1 (c :: rest) ||
      dateAmbSearch rest

/-- `PipelineValidator._validate_date_formats` (the `valid_patterns` list
in the source is dead code: only the ambiguous pattern is tested). -/
def validateDateFormats (content : List (List Char × JVal))
    (_section : List Char) : Option (List Char) :=
  if dateAmbSearch (pyRepr (.obj content)) then
    some (pyS "Data em formato ambiguo (use DD/MM/AAAA)")
  else Option.none

mutual

/-- `has_content` of `_validate_not_empty`. -/
def hasContent : JVal → Bool
  | .str s => pyStrip s ≠ []
  | .num _ => true
  | .arr xs => anyContentArr xs
  | .obj fs => anyContentFields fs

def anyContentFields : List (List Char × JVal) → Bool
  | [] => false
  | (k, v) :: rest =>
    (if k ≠ pyS "fonte" then hasContent v else false) || anyContentFields rest

def anyContentArr : List JVal → Bool
  | [] => false
  | v :: rest => hasContent v || anyContentArr rest

end

/-- `PipelineValidator._validate_not_empty`. -/
def validateNotEmpty (content : List (List Char × JVal))
    (_section : List Char) : Option (List Char) :=
  if content.isEmpty then some (pyS "Secao vazia")
  else
    match lookupD content (pyS "erro") with
    | some v => some (pyS "Secao com erro: " ++ pyStr v)
    | Option.none =>
      if !hasContent (.obj content) then
        some (pyS "Secao sem conteudo significativo")
      else Option.none

/-- `ValidationError` (from `src/custom_types/extraction_types.py`). -/
structure ValidationErrorL where
  secao : List Char
  regra : List Char
  mensagem : List Char
  severidade : ValidationSeverity
  campo : Option (List Char) := Option.none
  valor : Option JVal := Option.none

/-- `SectionResult` (from `src/custom_types/extraction_types.py`). -/
structure SectionResultL where
  secao : List Char
  conteudo : List (List Char × JVal)
  fontes_utilizadas : List (List Char)
  validacao_ok : Bool := true
  erros_validacao : List ValidationErrorL := []
  tentativas : Nat := 1

/-- `ValidationRule`. -/
structure ValidationRuleL where
  name : List Char
  description : List Char
  severity : ValidationSeverity
  applies_to : List (List Char)
  validator : List (List Char × JVal) → List Char → Option (List Char)

/-- `PipelineValidator._build_rules`, in source order. -/
def buildRules : List ValidationRuleL := [
  { name := pyS "campo_sem_localizacao"
    description := pyS "Campo com valor mas sem fonte/localizacao"
    severity := .error
    applies_to := [pyS "cabecalho", pyS "parametros_calculo",
      pyS "resultado_por_pedido"]
    validator := validateHasSources },
  { name := pyS "verba_sem_parametro"
    description := pyS "Verba deferida sem parametros de calculo"
    severity := .error
    applies_to := [pyS "parametros_calculo", pyS "resultado_por_pedido"]
    validator := validateVerbasHaveParams },
  { name := pyS "percentual_sem_fonte"
    description := pyS "Percentual informado sem fonte"
    severity := .error
    applies_to := [pyS "parametros_calculo"]
    validator := validatePercentuais },
  { name := pyS "valor_sem_fonte"
    description := pyS "Valor monetario sem fonte"
    severity := .error
    applies_to := [pyS "parametros_calculo", pyS "resultado_por_pedido",
      pyS "resumo"]
    validator := validateValores },
  { name := pyS "reflexo_sem_base"
    description := pyS "Reflexo mencionado sem verba base"
    severity := .warning
    applies_to := [pyS "resultado_por_pedido", pyS "parametros_calculo"]
    validator := validateReflexos },
  { name := pyS "linguagem_vaga"
    description := pyS "Uso de linguagem vaga ou incerta"
    severity := .warning
    applies_to := [pyS "*"]
    validator := validateNoVague },
  { name := pyS "data_invalida"
    description := pyS "Data em formato invalido"
    severity := .warning
    applies_to := [pyS "cabecalho", pyS "timeline", pyS "parametros_calculo"]
    validator := validateDateFormats },
  { name := pyS "secao_vazia"
    description := pyS "Secao com conteudo vazio ou erro"
    severity := .error
    applies_to := [pyS "*"]
    validator := validateNotEmpty }]

/-- One iteration of `validate_section`'s rule loop: skipped when the rule
applies neither to `*` nor to this section, else one error per returned
message. -/
def ruleErrors (sec : SectionResultL) (rule : ValidationRuleL) :
    List ValidationErrorL :=
  if pyS "*" ∉ rule.applies_to ∧ sec.secao ∉ rule.applies_to then []
  else
    match rule.validator sec.conteudo sec.secao with
    | some msg =>
      [{ secao := sec.secao
         regra := rule.name
         mensagem := msg
         severidade := rule.severity }]
    | Option.none => []

/-- `PipelineValidator.validate_section` (the source's accumulation loop
is the concatenation of the per-rule error lists, in rule order). -/
def validateSection (sec : SectionResultL) : Bool × List ValidationErrorL :=
  ((!(buildRules.flatMap (ruleErrors sec)).any
      (fun e => decide (e.severidade = .error))),
   buildRules.flatMap (ruleErrors sec))

/-- The property claim C2 quantifies over, read from its words: the
content contains, at some nesting depth, an object carrying a non-empty
(`truthy`) `valor` different from the placeholder `nao identificado` but
no non-empty `fonte`. -/
inductive HasUnsourcedValue : JVal → Prop where
  | here {fs : List (List Char × JVal)} :
      hasValorSemFonte fs = true → HasUnsourcedValue (.obj fs)
  | inField {fs : List (List Char × JVal)} {k : List Char} {v : JVal} :
      (k, v) ∈ fs → HasUnsourcedValue v → HasUnsourcedValue (.obj fs)
  | inElem {xs : List JVal} {v : JVal} :
      v ∈ xs → HasUnsourcedValue v → HasUnsourcedValue (.arr xs)

theorem append_ne_nil_iff {α : Type} (a b : List α) :
    a ++ b ≠ [] ↔ a ≠ [] ∨ b ≠ [] := by
  rcases a with - | ⟨x, a⟩ <;> rcases b with - | ⟨y, b⟩ <;> simp

mutual

theorem checkR_ne_iff :
    ∀ (v : JVal) (p : List Char), checkR v p ≠ [] ↔ HasUnsourcedValue v
  | .str s, p => by
    rw [checkR]
    · exact ⟨fun h => absurd rfl h, fun h => by cases h⟩
    · exact fun fs h => JVal.noConfusion h
    · exact fun xs h => JVal.noConfusion h
  | .num n, p => by
    rw [checkR]
    · exact ⟨fun h => absurd rfl h, fun h => by cases h⟩
    · exact fun fs h => JVal.noConfusion h
    · exact fun xs h => JVal.noConfusion h
  | .obj fs, p => by
    rw [checkR, append_ne_nil_iff]
    constructor
    · intro h
      rcases h with h | h
      · by_cases hv : hasValorSemFonte fs = true
        · exact .here hv
        · rw [if_neg hv] at h
          exact absurd rfl h
      · obtain ⟨kv, hmem, hkv⟩ := (checkFields_ne_iff fs p).mp h
        exact .inField (by simpa using hmem) hkv
    · intro h
      cases h with
      | here hv => exact Or.inl (by rw [if_pos hv]; simp)
      | inField hmem hv =>
        exact Or.inr ((checkFields_ne_iff fs p).mpr ⟨_, hmem, hv⟩)
  | .arr xs, p => by
    rw [checkR]
    constructor
    · intro h
      obtain ⟨v, hmem, hv⟩ := (checkArrR_ne_iff xs p 0).mp h
      exact .inElem hmem hv
    · intro h
      cases h with
      | inElem hmem hv => exact (checkArrR_ne_iff xs p 0).mpr ⟨_, hmem, hv⟩

theorem checkFields_ne_iff :
    ∀ (fs : List (List Char × JVal)) (p : List Char),
      checkFields fs p ≠ [] ↔ ∃ kv ∈ fs, HasUnsourcedValue kv.2
  | [], p => by
    rw [checkFields]
    simp
  | (k, v) :: rest, p => by
    rw [checkFields, append_ne_nil_iff, checkR_ne_iff v (newPath p k),
      checkFields_ne_iff rest p]
    constructor
    · intro h
      rcases h with h | ⟨kv, hmem, hkv⟩
      · exact ⟨(k, v), by simp, h⟩
      · exact ⟨kv, by simp [hmem], hkv⟩
    · intro ⟨kv, hmem, hkv⟩
      rcases List.mem_cons.mp hmem with rfl | hmem'
      · exact Or.inl hkv
      · exact Or.inr ⟨kv, hmem', hkv⟩

theorem checkArrR_ne_iff :
    ∀ (xs : List JVal) (p : List Char) (i : Nat),
      checkArrR xs p i ≠ [] ↔ ∃ v ∈ xs, HasUnsourcedValue v
  | [], p, i => by
    rw [checkArrR]
    simp
  | v :: rest, p, i => by
    rw [checkArrR, append_ne_nil_iff,
      checkR_ne_iff v (p ++ '[' :: natChars i ++ [']']),
      checkArrR_ne_iff rest p (i + 1)]
    constructor
    · intro h
      rcases h with h | ⟨w, hmem, hw⟩
      · exact ⟨v, by simp, h⟩
      · exact ⟨w, by simp [hmem], hw⟩
    · intro ⟨w, hmem, hw⟩
      rcases List.mem_cons.mp hmem with rfl | hmem'
      · exact Or.inl hw
      · exact Or.inr ⟨w, hmem', hw⟩

end

theorem validateHasSources_isSome_iff (content : List (List Char × JVal))
    (sec : List Char) :
    (validateHasSources content sec).isSome = true ↔
      HasUnsourcedValue (.obj content) := by
  unfold validateHasSources
  by_cases h : checkR (.obj content) [] ≠ []
  · rw [if_pos h]
    simpa using (checkR_ne_iff (.obj content) []).mp h
  · rw [if_neg h]
    simp only [Option.isSome_none, Bool.false_eq_true, false_iff]
    intro hh
    exact h ((checkR_ne_iff (.obj content) []).mpr hh)

theorem mem_ruleErrors {s : SectionResultL} {r : ValidationRuleL}
    {e : ValidationErrorL} (h : e ∈ ruleErrors s r) :
    e.regra = r.name ∧ e.severidade = r.severity ∧
      (r.validator s.conteudo s.secao).isSome = true := by
  unfold ruleErrors at h
  split at h
  · simp at h
  · split at h
    · rcases List.mem_singleton.mp h with rfl
      refine ⟨rfl, rfl, ?_⟩
      rename_i heq
      rw [heq]
      rfl
    · simp at h

/-- C2: for a section in the missing-source rule's scope, an
ERROR-severity finding of the `campo_sem_localizacao` rule is reported
exactly when the content holds, at any nesting depth, an object with a
non-empty non-placeholder `valor` and no non-empty `fonte` (so an
otherwise identical object that carries its `fonte` yields no finding from
that rule); and the section passes exactly when no ERROR-severity finding
accumulates, so WARNING findings alone never fail a section. -/
theorem C2_missing_source_rule_and_error_gate (s : SectionResultL)
    (hsec : s.secao ∈ [pyS "cabecalho", pyS "parametros_calculo",
      pyS "resultado_por_pedido"]) :
    ((∃ e ∈ (validateSection s).2, e.regra = pyS "campo_sem_localizacao" ∧
        e.severidade = .error) ↔ HasUnsourcedValue (.obj s.conteudo)) ∧
    ((validateSection s).1 = true ↔
      ∀ e ∈ (validateSection s).2, e.severidade ≠ .error) := by
  constructor
  · constructor
    · intro ⟨e, he, hregra, hsev⟩
      have he' : ∃ r ∈ buildRules, e ∈ ruleErrors s r := List.mem_flatMap.mp he
      obtain ⟨r, hr, her⟩ := he'
      have hprops := mem_ruleErrors her
      rw [buildRules] at hr
      simp only [List.mem_cons, List.not_mem_nil, or_false] at hr
      rcases hr with rfl | rfl | rfl | rfl | rfl | rfl | rfl | rfl
      · exact (validateHasSources_isSome_iff s.conteudo s.secao).mp hprops.2.2
      all_goals exact absurd (hprops.1.symm.trans hregra) (by decide)
    · intro h
      have hsome : (validateHasSources s.conteudo s.secao).isSome = true :=
        (validateHasSources_isSome_iff s.conteudo s.secao).mpr h
      obtain ⟨msg, hmsg⟩ := Option.isSome_iff_exists.mp hsome
      refine ⟨⟨s.secao, pyS "campo_sem_localizacao", msg, .error,
        Option.none, Option.none⟩, ?_, rfl, rfl⟩
      refine List.mem_flatMap.mpr
        ⟨⟨pyS "campo_sem_localizacao",
          pyS "Campo com valor mas sem fonte/localizacao", .error,
          [pyS "cabecalho", pyS "parametros_calculo",
            pyS "resultado_por_pedido"], validateHasSources⟩, ?_, ?_⟩
      · rw [buildRules]
        exact List.mem_cons_self _ _
      · unfold ruleErrors
        rw [if_neg (by
          rintro ⟨-, habs⟩
          exact habs hsec)]
        simp only [hmsg]
        simp
  · constructor
    · intro h e he hsev
      have hfalse : (buildRules.flatMap (ruleErrors s)).any
          (fun e => decide (e.severidade = .error)) = false := by
        simpa [validateSection] using h
      have h2 := List.any_eq_false.mp hfalse e he
      simp [hsev] at h2
    · intro h
      show (!(buildRules.flatMap (ruleErrors s)).any
        (fun e => decide (e.severidade = .error))) = true
      cases hany : (buildRules.flatMap (ruleErrors s)).any
          (fun e => decide (e.severidade = .error))
      · rfl
      · obtain ⟨e, he, hdec⟩ := List.any_eq_true.mp hany
        exact absurd (of_decide_eq_true hdec) (h e he)

/-- Witness section for C2: `{"campo": {"valor": "R$ 500,00"}}` in the
`cabecalho` section (the spec's own example). -/
def c2Section : SectionResultL :=
  { secao := pyS "cabecalho"
    conteudo := [(pyS "campo",
      JVal.obj [(pyS "valor", JVal.str (pyS "R$ 500,00"))])]
    fontes_utilizadas := [] }

/-- Witness for C2 at the spec's example section. -/
theorem C2_witness :
    c2Section.secao ∈ [pyS "cabecalho", pyS "parametros_calculo",
      pyS "resultado_por_pedido"] ∧
    (((∃ e ∈ (validateSection c2Section).2,
        e.regra = pyS "campo_sem_localizacao" ∧
        e.severidade = .error) ↔ HasUnsourcedValue (.obj c2Section.conteudo)) ∧
     ((validateSection c2Section).1 = true ↔
       ∀ e ∈ (validateSection c2Section).2, e.severidade ≠ .error)) :=
  ⟨by decide, C2_missing_source_rule_and_error_gate c2Section (by decide)⟩

/-! ### `src/core/anti_hallucination_summarizer.py` -/

/-- The per-section `while attempts <= self.max_regeneration_attempts`
loop of `AntiHallucinationSummarizer._layer6_validation`.  The
`generator.regenerate_section` model call is embedded as the oracle
`regen` from the attempt number and the current error messages to the
regenerated section.  The fuel equals `maxA + 1 - attempts`, so fuel `0`
is exactly the loop guard failing.  Returns
`(current_section, attempts, number of regenerate calls)`. -/
def layer6While (maxA : Nat) (regen : Nat → List (List Char) → SectionResultL) :
    Nat → Nat → List (List Char) → Option SectionResultL →
      Option SectionResultL × Nat × Nat
  | 0, attempts, _, current => (current, attempts, 0)
  | fuel + 1, attempts, errors, _ =>
    if (validateSection (regen attempts errors)).1 then
      (some (regen attempts errors), attempts, 1)
    else
      match layer6While maxA regen fuel (attempts + 1)
          ((validateSection (regen attempts errors)).2.map (fun e => e.mensagem))
          (some (regen attempts errors)) with
      | (current', attempts', count) => (current', attempts', count + 1)

/-- The body of `_layer6_validation` for one entry of `to_regenerate`:
runs the while loop from `attempts = 1` and then sets
`current_section.tentativas = attempts` when a section is present.
`_current` is unused when `maxA ≥ 1` because the loop always regenerates
at least once. -/
def layer6Section (maxA : Nat)
    (regen : Nat → List (List Char) → SectionResultL)
    (initial : Option SectionResultL) (errors0 : List (List Char)) :
    Option SectionResultL × Nat :=
  match layer6While maxA regen maxA 1 errors0 initial with
  | (current, attempts, count) =>
    (match current with
     | some cs => some { cs with tentativas := attempts }
     | Option.none => Option.none,
     count)

theorem layer6While_all_fail (maxA : Nat)
    (regen : Nat → List (List Char) → SectionResultL)
    (hfail : ∀ n e, (validateSection (regen n e)).1 = false) :
    ∀ (fuel : Nat), 1 ≤ fuel →
      ∀ (attempts : Nat) (errors : List (List Char))
        (current : Option SectionResultL),
      ∃ errsLast, layer6While maxA regen fuel attempts errors current =
        (some (regen (attempts + fuel - 1) errsLast), attempts + fuel, fuel) := by
  intro fuel
  induction fuel with
  | zero => intro h; omega
  | succ f ih =>
    intro _ attempts errors current
    rw [layer6While, if_neg (by simp [hfail])]
    match f, ih with
    | 0, _ =>
      refine ⟨errors, ?_⟩
      rw [layer6While]
      simp
    | f' + 1, ih =>
      obtain ⟨e', he'⟩ := ih (by omega) (attempts + 1)
        ((validateSection (regen attempts errors)).2.map (fun e => e.mensagem))
        (some (regen attempts errors))
      refine ⟨e', ?_⟩
      rw [he']
      have h1 : attempts + 1 + (f' + 1) - 1 = attempts + (f' + 1 + 1) - 1 := by omega
      have h2 : attempts + 1 + (f' + 1) = attempts + (f' + 1 + 1) := by omega
      rw [h1, h2]

/-- C3 (amended): a section failing ERROR-severity validation on every
attempt is regenerated exactly `max_regeneration_attempts` times and the
loop terminates (it is a total function of its fuel); but the returned
`SectionResult` carries `tentativas = max_regeneration_attempts + 1` (the
loop counter after the final failed attempt), not
`max_regeneration_attempts`, and its `validacao_ok` is whatever the
generator set on the last regenerated section — the loop never writes the
validation outcome into it. -/
theorem C3_regeneration_bound (maxA : Nat) (hmax : 1 ≤ maxA)
    (regen : Nat → List (List Char) → SectionResultL)
    (initial : Option SectionResultL) (errors0 : List (List Char))
    (hfail : ∀ n e, (validateSection (regen n e)).1 = false) :
    (layer6Section maxA regen initial errors0).2 = maxA ∧
    ∃ errsLast,
      (layer6Section maxA regen initial errors0).1 =
        some { regen maxA errsLast with tentativas := maxA + 1 } := by
  obtain ⟨e', he'⟩ := layer6While_all_fail maxA regen hfail maxA hmax 1 errors0 initial
  have h1 : 1 + maxA - 1 = maxA := by omega
  rw [h1] at he'
  constructor
  · unfold layer6Section
    rw [he']
  · refine ⟨e', ?_⟩
    unfold layer6Section
    rw [he']
    have h2 : 1 + maxA = maxA + 1 := by omega
    rw [h2]

/-- A section whose regeneration always produces empty content, so the
`secao_vazia` ERROR rule fails it on every attempt (C3 fixture). -/
def c3FailSection : SectionResultL :=
  { secao := pyS "cabecalho"
    conteudo := []
    fontes_utilizadas := []
    validacao_ok := true }

/-- C3 as stated is false: with `max_regeneration_attempts = 2` and a
section failing validation on every attempt, regeneration is invoked
exactly 2 times and the loop terminates, but the returned section has
`tentativas = 3` (not 2) and `validacao_ok = true` even though its last
validation failed. -/
theorem C3_counterexample :
    (validateSection c3FailSection).1 = false ∧
    (layer6Section 2 (fun _ _ => c3FailSection) (some c3FailSection) []).2 = 2 ∧
    ((layer6Section 2 (fun _ _ => c3FailSection) (some c3FailSection) []).1.map
      (fun s => s.tentativas)) = some 3 ∧
    ((layer6Section 2 (fun _ _ => c3FailSection) (some c3FailSection) []).1.map
      (fun s => s.validacao_ok)) = some true := by
  refine ⟨by decide, by decide, by decide, by decide⟩

/-- Witness for C3 (amended) at `max_regeneration_attempts = 2` with a
constantly failing regenerated section. -/
theorem C3_witness :
    1 ≤ 2 ∧
    (∀ (n : Nat) (e : List (List Char)),
      (validateSection ((fun _ _ => c3FailSection) n e)).1 = false) ∧
    ((layer6Section 2 (fun _ _ => c3FailSection) (some c3FailSection) []).2 = 2 ∧
    ∃ errsLast,
      (layer6Section 2 (fun _ _ => c3FailSection) (some c3FailSection) []).1 =
        some { (fun (_ : Nat) (_ : List (List Char)) => c3FailSection) 2 errsLast
          with tentativas := 2 + 1 }) :=
  ⟨by decide,
    fun _ _ => (by decide : (validateSection c3FailSection).1 = false),
    C3_regeneration_bound 2 (by decide) (fun _ _ => c3FailSection)
      (some c3FailSection) []
      (fun _ _ => (by decide : (validateSection c3FailSection).1 = false))⟩

/-- `AntiHallucinationSummarizer.summarize`'s empty-input guard: the rest
of the pipeline (Layers 1–6 and the final JSON assembly, which all live
behind language-model collaborators) is embedded as the opaque `pipeline`
function, invoked only when the guard passes. -/
def summarize (pipeline : List Char → List Char) (text : List Char) : List Char :=
  if text.isEmpty || (pyStrip text).isEmpty then
    pyS "\x7b\"erro\": \"Texto vazio\"\x7d"
  else pipeline text

/-- C8: empty or whitespace-only input short-circuits `summarize` to the
exact JSON object `{"erro": "Texto vazio"}` before any pipeline layer runs
— the result does not depend on the pipeline, so no model call occurs. -/
theorem C8_empty_input_short_circuit (pipeline : List Char → List Char)
    (text : List Char) (h : pyStrip text = []) :
    summarize pipeline text = pyS "\x7b\"erro\": \"Texto vazio\"\x7d" ∧
    ∀ p₁ p₂ : List Char → List Char,
      summarize p₁ text = summarize p₂ text := by
  have hguard : (text.isEmpty || (pyStrip text).isEmpty) = true := by
    rw [h]
    simp
  constructor
  · unfold summarize
    rw [hguard]
    rfl
  · intro p₁ p₂
    unfold summarize
    rw [hguard]
    simp

/-- Witness for C8 on a whitespace-only input. -/
theorem C8_witness :
    pyStrip (pyS " \t\n ") = [] ∧
    (summarize (fun t => t) (pyS " \t\n ") =
      pyS "\x7b\"erro\": \"Texto vazio\"\x7d" ∧
    ∀ p₁ p₂ : List Char → List Char,
      summarize p₁ (pyS " \t\n ") = summarize p₂ (pyS " \t\n ")) :=
  ⟨by decide, C8_empty_input_short_circuit (fun t => t) (pyS " \t\n ") (by decide)⟩

end FiveRocks
